import Mathlib

/-!
Verification of the ScaleHLS-HIDA parallelization and copy-simplification core.

This file gives a shallow embedding of the two source files

  * `lib/Transforms/Dataflow/ParallelizeDataflowNode.cpp`
  * `lib/Transforms/Memory/SimplifyCopy.cpp`

and proves properties of the embedded definitions.

Modelling conventions:

  * Machine integers (`unsigned long`, `unsigned`) are modelled as `Nat`;
    C++ integer division is `Nat` division (floor).  The one place where the
    divisor can be `0` (C++ undefined behaviour) is tracked separately by an
    instrumented `Option`-valued variant of the computation.
  * The MLIR walk `func.walk<WalkOrder::PreOrder>([](ScheduleOp ...))` visits
    the `ScheduleOp`s of a function in pre-order; we embed a function as the
    resulting visit sequence: a list of pairs `(parent NodeOp, ScheduleOp)`
    where the first component is the innermost enclosing `NodeOp` of the
    visited schedule (`none` for a function-level schedule).  The walk body is
    embedded as a step function folded over that sequence;
    `WalkResult::interrupt()` stops the fold and reports a diagnostic.
  * External collaborators that live outside the two source files
    (`ComplexityAnalysis`, `CorrelationAnalysis`, `hasEffectOnExternalBuffer`,
    `getTileAndPointLoopBand`, `isLoopParallel`, `hasParallelAttr`,
    `getNodeLoopBand`) are modelled as input data carried by the embedded
    structures, reflecting their result at the single program point where the
    source consults them.
  * The factor distribution utilities `getEvenlyDistributedFactors` and
    `getDistributedFactors` are declared in `scalehls/Transforms/Utils.h` and
    are not part of the given sources; they are modelled from the spec (see
    their doc comments).  No theorem below depends on the numeric content of
    the distribution beyond what the spec states.
-/

namespace ScaleHLS

/-- A single `affine.for` loop of a loop band, recording the answers of the
two external parallelism oracles consulted by `applyLoopVectorization`:
`hasParallelAttr(loop)` and `isLoopParallel(loop)`. -/
structure Loop where
  hasParallelAttr : Bool
  isParallel : Bool
deriving DecidableEq, Repr

/-- A perfect loop nest (`AffineLoopBand`), outermost to innermost, together
with the answers of the external oracles consulted per band:
`hasEffectOnExternalBuffer(band.front())` and
`getTileAndPointLoopBand(band, tileBand, pointBand)` (`none` when the split
fails; `some (tileBand, pointBand)` otherwise, where the point band may be
empty). -/
structure LoopBand where
  loops : List Loop
  affectsExternal : Bool
  tilePointSplit : Option (List Loop × List Loop)
deriving DecidableEq, Repr

/-- A dataflow `NodeOp`.  `complexity` is the result of
`ComplexityAnalysis::getNodeComplexity` (`none` when unavailable),
`loopBand` is the band returned by `getNodeLoopBand(node)` used on the
correlation-aware path, and `bands` is the list of innermost loop bands
collected by the walk inside `applyNaiveLoopUnroll`. -/
structure Node where
  id : Nat
  complexity : Option Nat
  loopBand : LoopBand
  bands : List LoopBand
deriving DecidableEq, Repr

/-- A dataflow `ScheduleOp`.  `increase`/`decrease` model the optional integer
attributes of the same names; `complexity` is the result of
`ComplexityAnalysis::getScheduleComplexity`; `nodes` are the `NodeOp`s
directly contained in the schedule, in `schedule.getOps<NodeOp>()` order. -/
structure Schedule where
  id : Nat
  increase : Option Nat
  decrease : Option Nat
  complexity : Option Nat
  nodes : List Node
deriving DecidableEq, Repr

/-- Diagnostic emitted by `emitOpError` before a `WalkResult::interrupt()`:
either a node (`failed to get parent node's unroll factor` or
`failed to get node complexity`) or a schedule
(`failed to get schedule complexity`). -/
inductive Diag where
  | nodeErr (n : Node)
  | schedErr (s : Schedule)
deriving DecidableEq, Repr

/-- The pass options of `ParallelizeDataflowNode`. -/
structure Config where
  maxUnrollFactor : Nat
  pointLoopOnly : Bool
  complexityAware : Bool
  correlationAware : Bool
deriving DecidableEq, Repr

/-- One correlation of a node, as furnished by the external
`CorrelationAnalysis`: the correlated node (`corr.getCorrelatedNode(node)`)
and the dimension correlate map used by `corr.permuteFactors(node, factors)`
to translate a factor vector of the node into a factor vector of the
correlated node. -/
structure CorrEdge where
  target : Node
  cmap : List Nat
deriving DecidableEq, Repr

/-- An embedded `func::FuncOp`: the pre-order `ScheduleOp` visit sequence
(each with its innermost enclosing `NodeOp`, `none` at function level) and
the result of the external `CorrelationAnalysis` (a per-node correlation
list). -/
structure Func where
  visits : List (Option Node × Schedule)
  corr : List (Node × List CorrEdge)
deriving DecidableEq, Repr

/-! ### The per-node budget map (`nodeParallelFactorMap`)

`llvm::SmallDenseMap<NodeOp, unsigned long>` keyed by operation identity is
modelled as an association list keyed by the `Node` value; `insert` does not
overwrite an existing binding, exactly as `DenseMap::insert`. -/

/-- Association-list map from nodes to budgets. -/
abbrev BMap := List (Node × Nat)

/-- Lookup in the budget map (`nodeParallelFactorMap.lookup` /
`nodeParallelFactorMap.count`). -/
def lookupB : BMap → Node → Option Nat
  | [], _ => none
  | (k, v) :: t, n => if k = n then some v else lookupB t n

/-- The map insertion `nodeParallelFactorMap.insert({node, factor})`:
`DenseMap::insert` keeps an existing binding. -/
def insertNew (m : BMap) (n : Node) (v : Nat) : BMap :=
  match lookupB m n with
  | some _ => m
  | none => (n, v) :: m

/-- The per-node body of the walk in `getNodeParallelFactorMap`, lines 81-101:
for each `NodeOp` of the schedule, fetch its complexity (interrupt with a
diagnostic on the node when unavailable) and record
`max(1, scheduleUnrollFactor * nodeComplexity / scheduleComplexity)`. -/
def stepNodes (sf sc : Nat) : List Node → BMap → BMap × Option Diag
  | [], m => (m, none)
  | n :: rest, m =>
    match n.complexity with
    | none => (m, some (Diag.nodeErr n))
    | some nc => stepNodes sf sc rest (insertNew m n (max 1 (sf * nc / sc)))

/-- The schedule-level part of the walk body once the effective schedule
unroll factor `sf` is known, lines 75-101: fetch the schedule complexity
(interrupt with a diagnostic on the schedule when unavailable), then process
the contained nodes. -/
def stepSched (sf : Nat) (m : BMap) (s : Schedule) : BMap × Option Diag :=
  match s.complexity with
  | none => (m, some (Diag.schedErr s))
  | some sc => stepNodes sf sc s.nodes m

/-- The complete walk body of `getNodeParallelFactorMap`, lines 57-102: the
effective schedule unroll factor is `maxUnrollFactor` for a schedule with no
parent node; otherwise the parent node's recorded budget (interrupt with a
diagnostic on the parent node when missing), multiplied by the `increase`
attribute and then divided by the `decrease` attribute when present. -/
def stepVisit (mf : Nat) (m : BMap) (p : Option Node) (s : Schedule) :
    BMap × Option Diag :=
  match p with
  | none => stepSched mf m s
  | some pn =>
    match lookupB m pn with
    | none => (m, some (Diag.nodeErr pn))
    | some pb => stepSched (pb * s.increase.getD 1 / s.decrease.getD 1) m s

/-- The pre-order walk of `getNodeParallelFactorMap`: fold `stepVisit` over
the visit sequence, stopping at the first interrupt and keeping the map
accumulated so far (the member `nodeParallelFactorMap` is mutated in place
by the C++ walk and survives an interrupt). -/
def budgetWalk (mf : Nat) : List (Option Node × Schedule) → BMap → BMap × Option Diag
  | [], m => (m, none)
  | (p, s) :: rest, m =>
    match stepVisit mf m p s with
    | (m2, none) => budgetWalk mf rest m2
    | (m2, some d) => (m2, some d)

/-- `getNodeParallelFactorMap(func)`: the walk starting from the cleared map.
The second component records whether the walk was interrupted (and by which
diagnostic); the C++ member function returns `void` and its caller never
inspects this. -/
def getNodeParallelFactorMap (mf : Nat) (f : Func) : BMap × Option Diag :=
  budgetWalk mf f.visits []

/-- The effective schedule unroll factor of a visited schedule relative to a
budget map: `maxUnrollFactor` with no parent node, otherwise the parent's
recorded budget multiplied by `increase` and then divided by `decrease`
(lines 58-73). -/
def schedFactor (mf : Nat) (m : BMap) (p : Option Node) (s : Schedule) : Option Nat :=
  match p with
  | none => some mf
  | some pn =>
    match lookupB m pn with
    | none => none
    | some pb => some (pb * s.increase.getD 1 / s.decrease.getD 1)

/-- All nodes directly contained in the schedules of a visit sequence. -/
def flatNodes (vs : List (Option Node × Schedule)) : List Node :=
  vs.flatMap (fun v => v.2.nodes)

/-! ### Instrumented walk tracking the C++ division by zero

The source computes `scheduleUnrollFactor * nodeComplexity.value() /
scheduleComplexity.value()` (line 88) with no guard on the divisor; in C++ an
`unsigned long` division by zero is undefined behaviour.  The following
variant of the walk returns `none` exactly when that division is reached with
divisor `0`, and otherwise agrees with `budgetWalk`. -/

/-- The budget expression of line 87-89 with the C++ zero-divisor undefined
behaviour made explicit: `none` when `scheduleComplexity` is `0`. -/
def nodeBudgetChecked (sf nc sc : Nat) : Option Nat :=
  if sc = 0 then none else some (max 1 (sf * nc / sc))

/-- `stepNodes` with the zero-divisor instrumentation. -/
def stepNodesChecked (sf sc : Nat) : List Node → BMap → Option (BMap × Option Diag)
  | [], m => some (m, none)
  | n :: rest, m =>
    match n.complexity with
    | none => some (m, some (Diag.nodeErr n))
    | some nc =>
      match nodeBudgetChecked sf nc sc with
      | none => none
      | some b => stepNodesChecked sf sc rest (insertNew m n b)

/-- `stepSched` with the zero-divisor instrumentation. -/
def stepSchedChecked (sf : Nat) (m : BMap) (s : Schedule) :
    Option (BMap × Option Diag) :=
  match s.complexity with
  | none => some (m, some (Diag.schedErr s))
  | some sc => stepNodesChecked sf sc s.nodes m

/-- `stepVisit` with the zero-divisor instrumentation. -/
def stepVisitChecked (mf : Nat) (m : BMap) (p : Option Node) (s : Schedule) :
    Option (BMap × Option Diag) :=
  match p with
  | none => stepSchedChecked mf m s
  | some pn =>
    match lookupB m pn with
    | none => some (m, some (Diag.nodeErr pn))
    | some pb => stepSchedChecked (pb * s.increase.getD 1 / s.decrease.getD 1) m s

/-- `budgetWalk` with the zero-divisor instrumentation: `none` exactly when
the C++ code would divide by zero. -/
def budgetWalkChecked (mf : Nat) :
    List (Option Node × Schedule) → BMap → Option (BMap × Option Diag)
  | [], m => some (m, none)
  | (p, s) :: rest, m =>
    match stepVisitChecked mf m p s with
    | none => none
    | some (m2, none) => budgetWalkChecked mf rest m2
    | some (m2, some d) => some (m2, some d)

/-! ### Factor distribution utilities (external, modelled from the spec) -/

/-- Modelled from the spec: `getEvenlyDistributedFactors(maxFactor, factors,
band)` from `scalehls/Transforms/Utils.h` is not part of the given sources.
Per the spec it prefers "a balanced per-dimension split whose product equals
the scalar factor when such a split exists" and fails otherwise.  We model
it as: succeed with the uniform vector `[f, ..., f]` (sized like the in-out
`factors` argument) when some `f` satisfies `f ^ n = maxFactor`, fail
otherwise. -/
def evenlyDistributedFactors (maxFactor : Nat) (factors : List Nat) : Option (List Nat) :=
  match (List.range (maxFactor + 1)).find? (fun f => f ^ factors.length = maxFactor) with
  | some f => some (factors.map (fun _ => f))
  | none => none

/-- Modelled from the spec: `getDistributedFactors(maxFactor, band)` is the
unconstrained fallback distribution that "always succeeds"; we model it as
putting the whole scalar factor on the first dimension of the band. -/
def getDistributedFactors (maxFactor : Nat) (bandLen : Nat) : List Nat :=
  match bandLen with
  | 0 => []
  | k + 1 => maxFactor :: List.replicate k 1

/-- The two-step distribution used at lines 138-140 and 184-185: try
`getEvenlyDistributedFactors` on the base vector, fall back to
`getDistributedFactors` on the band's dimension count. -/
def distributeOver (maxFactor : Nat) (base : List Nat) (bandLen : Nat) : List Nat :=
  match evenlyDistributedFactors maxFactor base with
  | some fs => fs
  | none => getDistributedFactors maxFactor bandLen

/-! ### Loop transformations -/

/-- A loop-structure mutation performed by the pass: an
`applyLoopUnrollJam(band, factors)` call or the
`vectorizeAffineLoops` call inside `applyLoopVectorization`. -/
inductive Action where
  | unrollJam (nodeId : Nat) (loops : List Loop) (factors : List Nat)
  | vectorize (nodeId : Nat) (loops : List Loop) (factors : List Nat)
deriving DecidableEq, Repr

/-- Whether an action is an unroll-and-jam (as opposed to a vectorization). -/
def Action.isUnrollJam : Action → Bool
  | .unrollJam _ _ _ => true
  | .vectorize _ _ _ => false

/-- Whether a loop passes the per-loop parallelism check of line 29:
`hasParallelAttr(loop) || isLoopParallel(loop)`. -/
def parallelLoop (l : Loop) : Bool :=
  l.hasParallelAttr || l.isParallel

/-- `applyLoopVectorization(band, vectorFactors)`, lines 21-37: a factor
vector of all ones is a trivial success with no mutation; if some loop of
the band is not parallel the function returns `false` without mutating; and
otherwise the band is vectorized.  The returned pair is the C++ `bool`
result together with the mutation performed. -/
def applyLoopVectorization (nodeId : Nat) (loops : List Loop) (factors : List Nat) :
    Bool × List Action :=
  if factors.all (fun f => f = 1) then (true, [])
  else if loops.all parallelLoop then (true, [Action.vectorize nodeId loops factors])
  else (false, [])

/-- The unroll factor actually used by `applyNaiveLoopUnroll`, lines 109-111:
the given parallel factor when the pass is complexity aware, otherwise
always `maxUnrollFactor`. -/
def naiveUnrollFactor (cfg : Config) (parallelFactor : Nat) : Nat :=
  if cfg.complexityAware then parallelFactor else cfg.maxUnrollFactor

/-- The per-band body of `applyNaiveLoopUnroll`, lines 125-142: when
`pointLoopOnly` is set and the band has no effect on external buffers, the
band is replaced by its point sub-band when the tile/point split succeeds
with a non-empty point band, and is skipped entirely (`continue`)
otherwise; the (possibly replaced) band is then unrolled-and-jammed with
the distributed factors.  `none` means the band is left unmodified. -/
def naiveBandAction (cfg : Config) (uf : Nat) (n : Node) (band : LoopBand) :
    Option Action :=
  if cfg.pointLoopOnly && !band.affectsExternal then
    match band.tilePointSplit with
    | none => none
    | some (_tileLoops, pointLoops) =>
      if pointLoops.isEmpty then none
      else
        some (Action.unrollJam n.id pointLoops
          (distributeOver uf (List.replicate pointLoops.length 1) pointLoops.length))
  else
    some (Action.unrollJam n.id band.loops
      (distributeOver uf (List.replicate band.loops.length 1) band.loops.length))

/-- `applyNaiveLoopUnroll(node, parallelFactor)`, lines 108-143. -/
def applyNaiveLoopUnroll (cfg : Config) (n : Node) (parallelFactor : Nat) :
    List Action :=
  n.bands.filterMap (naiveBandAction cfg (naiveUnrollFactor cfg parallelFactor) n)

/-! ### The correlation-aware unifier (`applyCorrelationAwareUnroll`)

`llvm::SmallDenseMap<NodeOp, FactorList> nodeUnrollFactorsMap` is modelled as
an association list; `operator[]` overwrites an existing binding.  The loop
is instrumented with a trace of events so that the order of recording and
processing is observable. -/

/-- Association-list map from nodes to factor vectors
(`nodeUnrollFactorsMap`). -/
abbrev UMap := List (Node × List Nat)

/-- Lookup in the unroll-factor map (`nodeUnrollFactorsMap.lookup` /
`.count`). -/
def lookupU : UMap → Node → Option (List Nat)
  | [], _ => none
  | (k, v) :: t, n => if k = n then some v else lookupU t n

/-- The map write `nodeUnrollFactorsMap[node] = factors`: `operator[]`
overwrites an existing binding. -/
def setU : UMap → Node → List Nat → UMap
  | [], n, v => [(n, v)]
  | (k, w) :: t, n, v => if k = n then (n, v) :: t else (k, w) :: setU t n v

/-- Modelled from the spec: `corr.permuteFactors(node, factors)` of the
external `CorrelationAnalysis` translates a source factor vector into a
target-compatible factor vector through the edge's dimension correlate map;
entry `i` of the result is the source factor at dimension `cmap[i]`. -/
def permuteFactors (cmap : List Nat) (factors : List Nat) : List Nat :=
  cmap.map (fun i => factors.getD i 1)

/-- Trace events of the correlation-aware loop: `processed n base final`
records the iteration of the ranked loop body for node `n` (lines 159-198),
with the base vector used for distribution and the final vector written by
`nodeUnrollFactorsMap[node] = factors`; `preSeeded n v` records the
write `nodeUnrollFactorsMap[corrNode] = corrFactors` of line 221. -/
inductive CorrEvent where
  | processed (n : Node) (base final : List Nat)
  | preSeeded (n : Node) (factors : List Nat)
deriving DecidableEq, Repr

/-- The inner loop over the correlation list, lines 200-222: every edge whose
correlated node has no recorded vector yet receives the translation of the
current node's final vector; edges whose correlated node already has a
vector are skipped (`continue`). -/
def preSeedEdges (factors : List Nat) : List CorrEdge → UMap → UMap × List CorrEvent
  | [], m => (m, [])
  | e :: rest, m =>
    if (lookupU m e.target).isSome then preSeedEdges factors rest m
    else
      let v := permuteFactors e.cmap factors
      let r := preSeedEdges factors rest (setU m e.target v)
      (r.1, CorrEvent.preSeeded e.target v :: r.2)

/-- The distribution-and-record tail of one ranked-loop iteration, lines
184-222: distribute the node's parallel factor over the base vector, write
the node's entry, then pre-seed its correlated nodes. -/
def processTail (pf : Nat) (bandLen : Nat) (base : List Nat) (m : UMap) (n : Node)
    (corrList : List CorrEdge) : UMap × List CorrEvent :=
  let final := distributeOver pf base bandLen
  let r := preSeedEdges final corrList (setU m n final)
  (r.1, CorrEvent.processed n base final :: r.2)

/-- The parallel factor of a node on the correlation-aware path, lines
170-172: the budget-map entry when the pass is complexity aware and the
entry exists, otherwise `maxUnrollFactor`. -/
def nodeParallelFactor (cfg : Config) (bm : BMap) (n : Node) : Nat :=
  if cfg.complexityAware && (lookupB bm n).isSome then
    (lookupB bm n).getD cfg.maxUnrollFactor
  else cfg.maxUnrollFactor

/-- One iteration of the ranked loop, lines 159-222, for node `n`: skip when
the correlation list is empty; otherwise take the node's parallel factor
(the budget map entry when complexity aware, else `maxUnrollFactor`),
initialize the factors as ones sized to `getNodeLoopBand(node)`, and when a
vector already exists for the node, run the line-180 assertion
`assert(factors.size() == band.size())` — where `factors` is still the
freshly initialized all-ones vector — and reuse the existing vector as the
base.  `none` models a C++ assertion failure. -/
def processNode (cfg : Config) (bm : BMap) (corrOf : Node → List CorrEdge)
    (m : UMap) (n : Node) : Option (UMap × List CorrEvent) :=
  let corrList := corrOf n
  if corrList.isEmpty then some (m, [])
  else
    let pf := nodeParallelFactor cfg bm n
    let bandLen := n.loopBand.loops.length
    let factors0 : List Nat := List.replicate bandLen 1
    match lookupU m n with
    | some v =>
      if factors0.length = bandLen then some (processTail pf bandLen v m n corrList)
      else none
    | none => some (processTail pf bandLen factors0 m n corrList)

/-- The ranked loop of lines 159-222, over the sorted node list. -/
def corrLoop (cfg : Config) (bm : BMap) (corrOf : Node → List CorrEdge) :
    List (Node × Nat) → UMap → Option (UMap × List CorrEvent)
  | [], m => some (m, [])
  | (n, _) :: rest, m =>
    match processNode cfg bm corrOf m n with
    | none => none
    | some (m1, evs1) =>
      match corrLoop cfg bm corrOf rest m1 with
      | none => none
      | some (m2, evs2) => some (m2, evs1 ++ evs2)

/-- Insertion into a list sorted by strictly descending correlation count,
modelling the `llvm::sort(nodeAndNums, a.second > b.second)` order. -/
def insertByCount (x : Node × Nat) : List (Node × Nat) → List (Node × Nat)
  | [] => [x]
  | y :: t => if x.2 > y.2 then x :: y :: t else y :: insertByCount x t

/-- The descending sort of lines 152-155. -/
def sortByCount : List (Node × Nat) → List (Node × Nat)
  | [] => []
  | x :: t => insertByCount x (sortByCount t)

/-- `corrAnal.getCorrelations(node)`: the correlation list furnished for a
node by the external analysis (empty when the analysis has nothing for the
node). -/
def corrOfFun (f : Func) (n : Node) : List CorrEdge :=
  ((f.corr.find? (fun p => p.1 = n)).map (fun p => p.2)).getD []

/-- The unifier part of `applyCorrelationAwareUnroll`, lines 146-223: build
`nodeAndNums`, sort it by descending correlation count, and run the ranked
loop from the empty map.  `none` models a C++ assertion failure. -/
def corrUnify (cfg : Config) (f : Func) (bm : BMap) : Option (UMap × List CorrEvent) :=
  corrLoop cfg bm (corrOfFun f)
    (sortByCount (f.corr.map (fun p => (p.1, p.2.length)))) []

/-- The per-node dispatch of lines 227-233: bands that affect an external
buffer go to `applyLoopVectorization`, all others to
`applyLoopUnrollJam`. -/
def dispatchOne (n : Node) (fs : List Nat) : List Action :=
  if n.loopBand.affectsExternal then (applyLoopVectorization n.id n.loopBand.loops fs).2
  else [Action.unrollJam n.id n.loopBand.loops fs]

/-- The loop of lines 227-233 over the whole unroll-factor map. -/
def dispatchRecorded (umap : UMap) : List Action :=
  umap.flatMap (fun p => dispatchOne p.1 p.2)

/-- The fallback loop of lines 236-238: every node of the budget map without
a unifier-recorded vector is unrolled naively. -/
def naiveFallback (cfg : Config) (bm : BMap) (umap : UMap) : List Action :=
  bm.flatMap (fun p =>
    if (lookupU umap p.1).isSome then [] else applyNaiveLoopUnroll cfg p.1 p.2)

/-- `applyCorrelationAwareUnroll(func)`, lines 146-239, relative to the budget
map computed by `getNodeParallelFactorMap`. -/
def applyCorrelationAwareUnroll (cfg : Config) (f : Func) (bm : BMap) :
    Option (List Action) :=
  (corrUnify cfg f bm).map (fun r => dispatchRecorded r.1 ++ naiveFallback cfg bm r.1)

/-- `runOnOperation`, lines 241-249: compute the budget map — discarding any
interrupt diagnostic, since `getNodeParallelFactorMap` returns `void` and
the caller never checks for failure — then either run the
correlation-aware path or naively unroll every node of the (possibly
partial) budget map. -/
def runPass (cfg : Config) (f : Func) : Option (List Action) :=
  let bm := (getNodeParallelFactorMap cfg.maxUnrollFactor f).1
  if cfg.correlationAware then applyCorrelationAwareUnroll cfg f bm
  else some (bm.flatMap (fun p => applyNaiveLoopUnroll cfg p.1 p.2))

end ScaleHLS

namespace ScaleHLS

/-! ## The copy simplification pattern (`SimplifyCopy.cpp`)

The pattern operates on a single-block function body.  Values are block
arguments or op results; `BufferOp` and `ViewLikeOpInterface` ops produce one
result each, `memref.CopyOp` and generic user ops produce none.  `MLIR`
dominance within one block is position order, so both `crossRegionDominates`
and `DominanceInfo::dominates` reduce to comparison of body indices (with
`a` dominating itself). -/

/-- An SSA value: a block argument or the result of the op with the given
id. -/
inductive CVal where
  | arg (i : Nat)
  | res (opId : Nat)
deriving DecidableEq, Repr

/-- An operation of the function body: a `BufferOp` (with memory space and
optional initial value), a view op (`ViewLikeOpInterface`), a
`memref.CopyOp`, or a generic user op (e.g. a load or store). -/
inductive COp where
  | buffer (id : Nat) (space : Nat) (initVal : Option Nat)
  | view (id : Nat) (src : CVal)
  | copyOp (id : Nat) (src tgt : CVal)
  | user (id : Nat) (operands : List CVal)
deriving DecidableEq, Repr

/-- The id of an operation. -/
def COp.opId : COp → Nat
  | .buffer i _ _ => i
  | .view i _ => i
  | .copyOp i _ _ => i
  | .user i _ => i

/-- The operand list of an operation. -/
def COp.operands : COp → List CVal
  | .buffer _ _ _ => []
  | .view _ s => [s]
  | .copyOp _ s t => [s, t]
  | .user _ os => os

/-- A single-block function body: the memory spaces of the memref block
arguments and the ordered list of operations. -/
structure CFunc where
  argSpaces : List Nat
  body : List COp
deriving DecidableEq, Repr

/-- The operation with the given id, if any. -/
def getOp (fn : CFunc) (i : Nat) : Option COp :=
  fn.body.find? (fun o => o.opId = i)

/-- The position of the operation with the given id in the block. -/
def opPos (fn : CFunc) (i : Nat) : Option Nat :=
  fn.body.findIdx? (fun o => o.opId = i)

/-- Single-block dominance between the ops with the given ids: in one block
`DominanceInfo::dominates(a, b)` (and likewise `crossRegionDominates(a, b)`,
whose region-lifting loop is trivial in a single block) holds iff `a` is
`b` or comes before it. -/
def dominatesId (fn : CFunc) (a b : Nat) : Bool :=
  match opPos fn a, opPos fn b with
  | some ia, some ib => ia ≤ ib
  | _, _ => false

/-- The memory space of the memref type of a value
(`getType().cast<MemRefType>().getMemorySpaceAsInt()`); view results keep
the space of their source. -/
def memSpaceF (fn : CFunc) : Nat → CVal → Option Nat
  | 0, _ => none
  | _ + 1, .arg i => fn.argSpaces.get? i
  | fuel + 1, .res i =>
    match getOp fn i with
    | some (.buffer _ sp _) => some sp
    | some (.view _ s) => memSpaceF fn fuel s
    | _ => none

/-- The memory space of a value, with enough fuel for any acyclic view
chain of the body. -/
def memSpace (fn : CFunc) (v : CVal) : Option Nat :=
  memSpaceF fn (fn.body.length + 1) v

/-- `findBuffer(memref)`, lines 19-27: a block argument resolves to itself, a
`BufferOp` result to itself, a view result to the resolution of the view
source; anything else resolves to null (`none`). -/
def findBufferF (fn : CFunc) : Nat → CVal → Option CVal
  | 0, _ => none
  | _ + 1, .arg i => some (.arg i)
  | fuel + 1, .res i =>
    match getOp fn i with
    | some (.buffer _ _ _) => some (.res i)
    | some (.view _ s) => findBufferF fn fuel s
    | _ => none

/-- `findBuffer` with enough fuel for any acyclic view chain of the body. -/
def findBuffer (fn : CFunc) (v : CVal) : Option CVal :=
  findBufferF fn (fn.body.length + 1) v

/-- The direct users of a value (`memref.getUsers()`). -/
def usersOf (fn : CFunc) (v : CVal) : List COp :=
  fn.body.filter (fun o => v ∈ o.operands)

/-- `findBufferUsers(memref, users)`, lines 29-36: collect the users of the
value, recursing through view ops into the users of their results. -/
def findBufferUsersF (fn : CFunc) : Nat → CVal → List COp
  | 0, _ => []
  | fuel + 1, v =>
    (usersOf fn v).flatMap (fun o =>
      match o with
      | .view i _ => findBufferUsersF fn fuel (.res i)
      | _ => [o])

/-- `findBufferUsers` with enough fuel for any acyclic view chain. -/
def findBufferUsers (fn : CFunc) (v : CVal) : List COp :=
  findBufferUsersF fn (fn.body.length + 1) v

/-- The id of the `BufferOp` defining a resolved buffer value, if it is not a
block argument (`source.getDefiningOp<BufferOp>()`). -/
def definingBufferId (fn : CFunc) : CVal → Option Nat
  | .arg _ => none
  | .res i =>
    match getOp fn i with
    | some (.buffer _ _ _) => some i
    | _ => none

/-- The id of the defining op of a copy operand
(`copy.getSource().getDefiningOp()`; `none` for a block argument). -/
def definingOpId : CVal → Option Nat
  | .arg _ => none
  | .res i => some i

/-- Substitution of one value for another in an operand position. -/
def substVal (vOld vNew v : CVal) : CVal :=
  if v = vOld then vNew else v

/-- Substitution of one value for another in all operands of an op. -/
def COp.substOperands (o : COp) (vOld vNew : CVal) : COp :=
  match o with
  | .buffer i sp iv => .buffer i sp iv
  | .view i s => .view i (substVal vOld vNew s)
  | .copyOp i s t => .copyOp i (substVal vOld vNew s) (substVal vOld vNew t)
  | .user i os => .user i (os.map (substVal vOld vNew))

/-- `rewriter.replaceOp(buf, value)` followed by `rewriter.eraseOp(copy)`:
every use of the buffer's result is redirected to the value, and both the
buffer definition and the copy are removed. -/
def replaceAndErase (fn : CFunc) (bufId copyId : Nat) (vNew : CVal) : CFunc :=
  { fn with
    body := (fn.body.filter (fun o => o.opId ≠ bufId && o.opId ≠ copyId)).map
      (fun o => o.substOperands (.res bufId) vNew) }

/-- The per-op effect of `targetBuf.setInitValueAttr(...)`: set the initial
value of the buffer with the given id, leave everything else unchanged. -/
def setInitFun (bufId : Nat) (iv : Nat) : COp → COp
  | .buffer i sp iv0 => if i = bufId then .buffer i sp (some iv) else .buffer i sp iv0
  | o => o

/-- `targetBuf.setInitValueAttr(...)`: update the initial value of the buffer
with the given id. -/
def setBufInit (fn : CFunc) (bufId : Nat) (iv : Nat) : CFunc :=
  { fn with body := fn.body.map (setInitFun bufId iv) }

/-- Which of the two symmetric rewrites of `SimplifyBufferCopy` fired. -/
inductive RewriteKind where
  | elimTarget
  | elimSource
deriving DecidableEq, Repr

/-- The initial value of the `BufferOp` with the given id, if any. -/
def bufInitVal (fn : CFunc) (i : Nat) : Option Nat :=
  match getOp fn i with
  | some (.buffer _ _ iv) => iv
  | _ => none

/-- The eliminate-target applicability condition, lines 113-116: the target
resolves to a `BufferOp` that is itself the copy's target operand (no
intervening view), and the source view — if the source operand is not a
block argument — dominates every user of the target buffer. -/
abbrev elimTargetCond (fn : CFunc) (s t tgt : CVal) : Prop :=
  (definingBufferId fn tgt).isSome = true ∧
  definingBufferId fn tgt = definingOpId t ∧
  (definingOpId s = none ∨
    (findBufferUsers fn tgt).all
      (fun u => dominatesId fn ((definingOpId s).getD 0) u.opId) = true)

/-- The symmetric eliminate-source applicability condition, lines 125-128. -/
abbrev elimSourceCond (fn : CFunc) (s t src : CVal) : Prop :=
  (definingBufferId fn src).isSome = true ∧
  definingBufferId fn src = definingOpId s ∧
  (definingOpId t = none ∨
    (findBufferUsers fn src).all
      (fun u => dominatesId fn ((definingOpId t).getD 0) u.opId) = true)

/-- The failure condition of lines 132-134 for a source buffer that carries
an initial value: the target does not resolve to a local buffer, or it has
an initial value of its own while not being its own defining view. -/
abbrev initTransferFailCond (fn : CFunc) (t tgt : CVal) : Prop :=
  definingBufferId fn tgt = none ∨
  ((bufInitVal fn ((definingBufferId fn tgt).getD 0)).isSome = true ∧
    definingBufferId fn tgt ≠ definingOpId t)

/-- The two symmetric rewrites of `SimplifyBufferCopy::matchAndRewrite`,
lines 103-143, reached once all preconditions hold: eliminate the target
buffer when applicable; otherwise eliminate the source buffer when
applicable, transferring the source's initial value onto the target buffer
(or failing when that is impossible). -/
def matchAndRewriteBranches (fn : CFunc) (cid : Nat) (s t : CVal) (src tgt : CVal) :
    Option (RewriteKind × CFunc) :=
  if elimTargetCond fn s t tgt then
    some (.elimTarget, replaceAndErase fn ((definingBufferId fn tgt).getD 0) cid s)
  else if elimSourceCond fn s t src then
    match bufInitVal fn ((definingBufferId fn src).getD 0) with
    | some iv =>
      if initTransferFailCond fn t tgt then none
      else
        some (.elimSource,
          replaceAndErase (setBufInit fn ((definingBufferId fn tgt).getD 0) iv)
            ((definingBufferId fn src).getD 0) cid t)
    | none =>
      some (.elimSource, replaceAndErase fn ((definingBufferId fn src).getD 0) cid t)
  else none

/-- `SimplifyBufferCopy::matchAndRewrite`, lines 53-144, for a copy with
source operand `s` and target operand `t`: the sequential preconditions —
identical memory spaces, both sides resolving to a block argument or
`BufferOp`, at least one local buffer, and the two dominance conditions —
followed by the two symmetric rewrites.  `none` is `failure()` (the pattern
does not fire and the function is left unchanged by the rewrite driver);
`some (k, fn2)` is `success()` with the rewrite `k` performed. -/
def matchAndRewriteCore (fn : CFunc) (cid : Nat) (s t : CVal) : Option (RewriteKind × CFunc) :=
  match memSpace fn s with
  | none => none
  | some ssp =>
    match memSpace fn t with
    | none => none
    | some tsp =>
      if ssp ≠ tsp then none
      else
        match findBuffer fn s with
        | none => none
        | some src =>
          match findBuffer fn t with
          | none => none
          | some tgt =>
            let sBuf := definingBufferId fn src
            let tBuf := definingBufferId fn tgt
            if sBuf = none ∧ tBuf = none then none
            else
              let srcUsers := findBufferUsers fn src
              let tgtUsers := findBufferUsers fn tgt
              if ¬ (srcUsers.all (fun u => dominatesId fn u.opId cid)) then none
              else if ¬ (tgtUsers.all (fun u => dominatesId fn cid u.opId)) then none
              else matchAndRewriteBranches fn cid s t src tgt

/-- Dispatch of `matchAndRewrite` on the copy operation itself: anything that
is not a present `memref.CopyOp` cannot be matched. -/
def matchAndRewrite (fn : CFunc) (cid : Nat) : Option (RewriteKind × CFunc) :=
  match getOp fn cid with
  | some (.copyOp _ s t) => matchAndRewriteCore fn cid s t
  | _ => none

/-- The greedy driver's treatment of one copy: apply the pattern when it
matches, leave the function unchanged otherwise. -/
def simplifyCopyAt (fn : CFunc) (cid : Nat) : CFunc :=
  match matchAndRewrite fn cid with
  | some r => r.2
  | none => fn

/-- Whether some op of the body references the given value as an operand. -/
def referencesVal (fn : CFunc) (v : CVal) : Bool :=
  fn.body.any (fun o => v ∈ o.operands)

/-- Whether a value is defined in the function: an in-range block argument or
the result of a present `BufferOp` or view op (copies and generic users
have no results). -/
def valDefinedIn (fn : CFunc) : CVal → Bool
  | .arg i => i < fn.argSpaces.length
  | .res i =>
    match getOp fn i with
    | some (.buffer _ _ _) => true
    | some (.view _ _) => true
    | _ => false

/-- No dangling references: every operand of every op is defined. -/
def noDangling (fn : CFunc) : Bool :=
  fn.body.all (fun o => o.operands.all (valDefinedIn fn))

/-- Well-formedness of a function body: op ids are distinct and no operand
dangles. -/
def WFFunc (fn : CFunc) : Prop :=
  (fn.body.map COp.opId).Nodup ∧ noDangling fn = true

/-! ## Concrete example inputs used by the per-claim theorems below -/

/-- A parallel loop (both oracles answer positively). -/
def parLoop : Loop := { hasParallelAttr := true, isParallel := true }

/-- A sequential loop (both oracles answer negatively). -/
def seqLoop : Loop := { hasParallelAttr := false, isParallel := false }

def c1Band : LoopBand :=
  { loops := [parLoop], affectsExternal := false, tilePointSplit := none }

def c1n1 : Node := { id := 1, complexity := some 30, loopBand := c1Band, bands := [c1Band] }

def c1n2 : Node := { id := 2, complexity := some 10, loopBand := c1Band, bands := [c1Band] }

def c1S : Schedule :=
  { id := 1, increase := none, decrease := none, complexity := some 40,
    nodes := [c1n1, c1n2] }

def c1F : Func := { visits := [(none, c1S)], corr := [] }

def c6Band : LoopBand :=
  { loops := [parLoop], affectsExternal := false, tilePointSplit := none }

def c6n1 : Node := { id := 1, complexity := some 30, loopBand := c6Band, bands := [c6Band] }

def c6n2 : Node := { id := 2, complexity := some 10, loopBand := c6Band, bands := [c6Band] }

def c6n3 : Node := { id := 3, complexity := some 5, loopBand := c6Band, bands := [c6Band] }

def c6S : Schedule :=
  { id := 1, increase := none, decrease := none, complexity := some 40,
    nodes := [c6n1, c6n2] }

/-- A nested schedule whose complexity is unavailable. -/
def c6T : Schedule :=
  { id := 2, increase := none, decrease := none, complexity := none, nodes := [c6n3] }

def c6F : Func := { visits := [(none, c6S), (some c6n2, c6T)], corr := [] }

def c6cfg : Config :=
  { maxUnrollFactor := 8, pointLoopOnly := false, complexityAware := true,
    correlationAware := false }

def c10Band : LoopBand :=
  { loops := [parLoop], affectsExternal := false, tilePointSplit := none }

def c10n : Node := { id := 7, complexity := some 5, loopBand := c10Band, bands := [c10Band] }

/-- A schedule whose available aggregate complexity is `0`. -/
def c10S : Schedule :=
  { id := 3, increase := none, decrease := none, complexity := some 0, nodes := [c10n] }

def c10F : Func := { visits := [(none, c10S)], corr := [] }

def c2Band : LoopBand :=
  { loops := [parLoop], affectsExternal := false, tilePointSplit := none }

def c2A : Node := { id := 10, complexity := some 1, loopBand := c2Band, bands := [c2Band] }

def c2B : Node := { id := 11, complexity := some 2, loopBand := c2Band, bands := [c2Band] }

def c2C : Node := { id := 12, complexity := some 1, loopBand := c2Band, bands := [c2Band] }

/-- Correlation analysis output for the C2 example: `c2A` is linked to `c2B`
by an identity-mapped edge (and also to `c2C`, so that `c2A` is ranked
strictly first). -/
def c2F : Func :=
  { visits := [],
    corr := [(c2A, [{ target := c2B, cmap := [0] }, { target := c2C, cmap := [0] }]),
             (c2B, [{ target := c2A, cmap := [0] }]),
             (c2C, [{ target := c2A, cmap := [0] }])] }

def c2cfg : Config :=
  { maxUnrollFactor := 16, pointLoopOnly := false, complexityAware := true,
    correlationAware := true }

def c2bm : BMap := [(c2A, 4), (c2B, 8), (c2C, 4)]

def c9Band2 : LoopBand :=
  { loops := [parLoop, parLoop], affectsExternal := false, tilePointSplit := none }

def c9Band1 : LoopBand :=
  { loops := [parLoop], affectsExternal := false, tilePointSplit := none }

def c9A : Node := { id := 20, complexity := some 1, loopBand := c9Band2, bands := [c9Band2] }

/-- The node with a one-dimensional loop band that receives a two-entry
pre-seeded factor vector in the C9 example. -/
def c9B : Node := { id := 21, complexity := some 1, loopBand := c9Band1, bands := [c9Band1] }

def c9C : Node := { id := 22, complexity := some 1, loopBand := c9Band2, bands := [c9Band2] }

def c9F : Func :=
  { visits := [],
    corr := [(c9A, [{ target := c9B, cmap := [0, 1] }, { target := c9C, cmap := [0, 1] }]),
             (c9B, [{ target := c9A, cmap := [0] }]),
             (c9C, [{ target := c9A, cmap := [0, 1] }])] }

def c9cfg : Config :=
  { maxUnrollFactor := 4, pointLoopOnly := false, complexityAware := true,
    correlationAware := true }

def c9bm : BMap := [(c9A, 4), (c9B, 2), (c9C, 4)]

/-- Whether the event trace contains a `processed` event whose base vector
does not match the node's loop-band dimension count. -/
def hasSilentMismatch (evs : List CorrEvent) : Bool :=
  evs.any (fun e =>
    match e with
    | .processed n base _ => base.length ≠ n.loopBand.loops.length
    | _ => false)

/-- Whether an event touches (records a vector for) the given node. -/
def touchesRecord (n : Node) : CorrEvent → Bool
  | .processed k _ _ => k = n
  | .preSeeded k _ => k = n

/-- Whether an event is a ranked-loop processing of the given node. -/
def isProcessedEv (n : Node) : CorrEvent → Bool
  | .processed k _ _ => k = n
  | .preSeeded _ _ => false

/-- Whether the trace records a vector for `n` and processes `n` strictly
afterwards (i.e. the node is revisited after its vector was recorded). -/
def revisitedAfterRecord (n : Node) : List CorrEvent → Bool
  | [] => false
  | e :: rest =>
    if touchesRecord n e then rest.any (isProcessedEv n)
    else revisitedAfterRecord n rest

def c4nInt : Node :=
  { id := 30, complexity := some 1,
    loopBand := { loops := [parLoop], affectsExternal := false, tilePointSplit := none },
    bands := [{ loops := [parLoop], affectsExternal := false, tilePointSplit := none }] }

def c4nExt : Node :=
  { id := 31, complexity := some 1,
    loopBand := { loops := [parLoop], affectsExternal := true, tilePointSplit := none },
    bands := [] }

def c4nExtSeq : Node :=
  { id := 32, complexity := some 1,
    loopBand := { loops := [seqLoop], affectsExternal := true, tilePointSplit := none },
    bands := [] }

def c4cfg : Config :=
  { maxUnrollFactor := 4, pointLoopOnly := false, complexityAware := true,
    correlationAware := true }

/-- A band that cannot be tile/point split. -/
def c5BandNoSplit : LoopBand :=
  { loops := [parLoop], affectsExternal := false, tilePointSplit := none }

/-- A band whose tile/point split yields an empty point band. -/
def c5BandEmptyPoint : LoopBand :=
  { loops := [parLoop], affectsExternal := false,
    tilePointSplit := some ([parLoop], []) }

def c5n : Node :=
  { id := 40, complexity := some 1, loopBand := c5BandNoSplit,
    bands := [c5BandNoSplit, c5BandEmptyPoint] }

def c5cfg : Config :=
  { maxUnrollFactor := 4, pointLoopOnly := true, complexityAware := true,
    correlationAware := false }

/-- The C3 example: a copy from block argument `0` into local buffer `1`,
followed by a reader of the buffer. -/
def c3fn : CFunc :=
  { argSpaces := [0],
    body := [.buffer 1 0 none, .copyOp 2 (.arg 0) (.res 1), .user 3 [.res 1]] }

/-- The C3 example with the buffer allocated in a different memory space. -/
def c3fnDiff : CFunc :=
  { argSpaces := [0],
    body := [.buffer 1 1 none, .copyOp 2 (.arg 0) (.res 1), .user 3 [.res 1]] }

/-- The C7 example: same shape as the C3 example. -/
def c7fn : CFunc :=
  { argSpaces := [0],
    body := [.buffer 1 0 none, .copyOp 2 (.arg 0) (.res 1), .user 3 [.res 1]] }

/-- The C8 example: source buffer `1` carries initial value `7`; the target
buffer `2` is reached through view `3`. -/
def c8fn : CFunc :=
  { argSpaces := [],
    body := [.buffer 1 0 (some 7), .buffer 2 0 none, .view 3 (.res 2),
             .copyOp 4 (.res 1) (.res 3), .user 5 [.res 3]] }

/-- The C8 example with a target that has an initial value of its own and is
not its own defining view: the rewrite must not fire. -/
def c8fnBad : CFunc :=
  { argSpaces := [],
    body := [.buffer 1 0 (some 7), .buffer 2 0 (some 9), .view 3 (.res 2),
             .copyOp 4 (.res 1) (.res 3), .user 5 [.res 3]] }

/-- The expected result of the C7 rewrite at `c7fn`. -/
def c7fnAfter : CFunc := { argSpaces := [0], body := [.user 3 [.arg 0]] }

/-- The expected result of the C8 rewrite at `c8fn`. -/
def c8fnAfter : CFunc :=
  { argSpaces := [],
    body := [.buffer 2 0 (some 7), .view 3 (.res 2), .user 5 [.res 3]] }

/-! ## Lemmas about the budget map and the budget walk -/

/-- Map extension: every binding of `m` is a binding of `m2`. -/
def ExtB (m m2 : BMap) : Prop :=
  ∀ x w, lookupB m x = some w → lookupB m2 x = some w

theorem ExtB.rfl (m : BMap) : ExtB m m := fun _ _ h => h

theorem ExtB.comp {m1 m2 m3 : BMap} (h1 : ExtB m1 m2) (h2 : ExtB m2 m3) :
    ExtB m1 m3 := fun x w h => h2 x w (h1 x w h)

theorem lookupB_insertNew_preserve {m : BMap} {x : Node} {w : Nat} (n : Node) (v : Nat)
    (h : lookupB m x = some w) : lookupB (insertNew m n v) x = some w := by
  unfold insertNew
  cases hmn : lookupB m n with
  | some u => exact h
  | none =>
    simp only [lookupB]
    by_cases hx : n = x
    · subst hx; rw [h] at hmn; cases hmn
    · simp [hx, h]

theorem ExtB.insertNew (m : BMap) (n : Node) (v : Nat) : ExtB m (insertNew m n v) :=
  fun _ _ h => lookupB_insertNew_preserve n v h

theorem lookupB_insertNew_self {m : BMap} {n : Node} (v : Nat)
    (h : lookupB m n = none) : lookupB (insertNew m n v) n = some v := by
  unfold insertNew
  rw [h]
  simp [lookupB]

theorem lookupB_insertNew_fresh {m : BMap} {x n : Node} (v : Nat)
    (hx : x ≠ n) (h : lookupB m x = none) : lookupB (insertNew m n v) x = none := by
  unfold insertNew
  cases hmn : lookupB m n with
  | some u => exact h
  | none =>
    simp only [lookupB]
    have : ¬ n = x := fun hnx => hx hnx.symm
    simp [this, h]

theorem stepNodes_ext (sf sc : Nat) (ns : List Node) (m : BMap) :
    ExtB m (stepNodes sf sc ns m).1 := by
  induction ns generalizing m with
  | nil => exact ExtB.rfl m
  | cons n rest ih =>
    simp only [stepNodes]
    cases hc : n.complexity with
    | none => exact ExtB.rfl m
    | some nc =>
      exact (ExtB.insertNew m n (max 1 (sf * nc / sc))).comp
        (ih (insertNew m n (max 1 (sf * nc / sc))))

theorem stepNodes_fresh (sf sc : Nat) {ns : List Node} {m : BMap} {x : Node}
    (hx : x ∉ ns) (h : lookupB m x = none) :
    lookupB (stepNodes sf sc ns m).1 x = none := by
  induction ns generalizing m with
  | nil => exact h
  | cons n rest ih =>
    simp only [stepNodes]
    cases hc : n.complexity with
    | none => exact h
    | some nc =>
      have hxn : x ≠ n := fun he => hx (he ▸ List.mem_cons_self n rest)
      exact ih (fun hm => hx (List.mem_cons_of_mem n hm))
        (lookupB_insertNew_fresh _ hxn h)

/-- Successful processing of the nodes of one schedule records exactly the
budget formula for every node, provided the nodes are distinct and not yet
bound. -/
theorem stepNodes_spec (sf sc : Nat) {ns : List Node} {m m2 : BMap}
    (hrun : stepNodes sf sc ns m = (m2, none))
    (hnd : ns.Nodup)
    (hfresh : ∀ n ∈ ns, lookupB m n = none) :
    ∀ n ∈ ns, ∃ nc, n.complexity = some nc ∧
      lookupB m2 n = some (max 1 (sf * nc / sc)) := by
  induction ns generalizing m with
  | nil => intro n hn; cases hn
  | cons n0 rest ih =>
    simp only [stepNodes] at hrun
    cases hc : n0.complexity with
    | none => simp only [hc, Prod.mk.injEq] at hrun; cases hrun.2
    | some nc =>
      simp only [hc] at hrun
      intro n hn
      rcases List.mem_cons.mp hn with hn0 | hnr
      · subst hn0
        refine ⟨nc, hc, ?_⟩
        have hself : lookupB (insertNew m n (max 1 (sf * nc / sc))) n =
            some (max 1 (sf * nc / sc)) :=
          lookupB_insertNew_self _ (hfresh n (List.mem_cons_self n rest))
        have hext : ExtB (insertNew m n (max 1 (sf * nc / sc))) m2 := by
          have := stepNodes_ext sf sc rest (insertNew m n (max 1 (sf * nc / sc)))
          rw [hrun] at this
          exact this
        exact hext n _ hself
      · have hnd2 : rest.Nodup := (List.nodup_cons.mp hnd).2
        have hn0r : n0 ∉ rest := (List.nodup_cons.mp hnd).1
        refine ih hrun hnd2 ?_ n hnr
        intro k hk
        have hkn : k ≠ n0 := fun he => hn0r (he ▸ hk)
        exact lookupB_insertNew_fresh _ hkn (hfresh k (List.mem_cons_of_mem _ hk))

theorem stepVisit_ext (mf : Nat) (m : BMap) (p : Option Node) (s : Schedule) :
    ExtB m (stepVisit mf m p s).1 := by
  cases p with
  | none =>
    simp only [stepVisit, stepSched]
    cases s.complexity with
    | none => exact ExtB.rfl m
    | some sc => exact stepNodes_ext _ _ _ _
  | some pn =>
    simp only [stepVisit]
    cases lookupB m pn with
    | none => exact ExtB.rfl m
    | some pb =>
      simp only [stepSched]
      cases s.complexity with
      | none => exact ExtB.rfl m
      | some sc => exact stepNodes_ext _ _ _ _

theorem stepVisit_fresh {mf : Nat} {m : BMap} {p : Option Node} {s : Schedule}
    {x : Node} (hx : x ∉ s.nodes) (h : lookupB m x = none) :
    lookupB (stepVisit mf m p s).1 x = none := by
  cases p with
  | none =>
    simp only [stepVisit, stepSched]
    cases s.complexity with
    | none => exact h
    | some sc => exact stepNodes_fresh _ _ hx h
  | some pn =>
    simp only [stepVisit]
    cases lookupB m pn with
    | none => exact h
    | some pb =>
      simp only [stepSched]
      cases s.complexity with
      | none => exact h
      | some sc => exact stepNodes_fresh _ _ hx h

theorem schedFactor_mono {mf : Nat} {m m2 : BMap} {p : Option Node} {s : Schedule}
    {sf : Nat} (hext : ExtB m m2) (h : schedFactor mf m p s = some sf) :
    schedFactor mf m2 p s = some sf := by
  cases p with
  | none => exact h
  | some pn =>
    simp only [schedFactor] at h ⊢
    cases hpb : lookupB m pn with
    | none => rw [hpb] at h; cases h
    | some pb => rw [hpb] at h; rw [hext pn pb hpb]; exact h

/-- Successful processing of one visited schedule: the effective schedule
factor exists, the schedule complexity is available, and every contained
node is recorded with the budget formula. -/
theorem stepVisit_spec {mf : Nat} {m m2 : BMap} {p : Option Node} {s : Schedule}
    (hrun : stepVisit mf m p s = (m2, none))
    (hnd : s.nodes.Nodup)
    (hfresh : ∀ n ∈ s.nodes, lookupB m n = none) :
    ∃ sf, schedFactor mf m p s = some sf ∧ ∃ sc, s.complexity = some sc ∧
      ∀ n ∈ s.nodes, ∃ nc, n.complexity = some nc ∧
        lookupB m2 n = some (max 1 (sf * nc / sc)) := by
  cases p with
  | none =>
    simp only [stepVisit, stepSched] at hrun
    cases hsc : s.complexity with
    | none =>
      simp only [hsc, Prod.mk.injEq] at hrun; cases hrun.2
    | some sc =>
      simp only [hsc] at hrun
      exact ⟨mf, rfl, sc, rfl, stepNodes_spec mf sc hrun hnd hfresh⟩
  | some pn =>
    simp only [stepVisit] at hrun
    cases hpb : lookupB m pn with
    | none => simp only [hpb, Prod.mk.injEq] at hrun; cases hrun.2
    | some pb =>
      simp only [hpb, stepSched] at hrun
      cases hsc : s.complexity with
      | none => simp only [hsc, Prod.mk.injEq] at hrun; cases hrun.2
      | some sc =>
        simp only [hsc] at hrun
        refine ⟨pb * s.increase.getD 1 / s.decrease.getD 1, ?_, sc, rfl,
          stepNodes_spec _ sc hrun hnd hfresh⟩
        simp only [schedFactor, hpb]

theorem budgetWalk_ext (mf : Nat) (vs : List (Option Node × Schedule)) (m : BMap) :
    ExtB m (budgetWalk mf vs m).1 := by
  induction vs generalizing m with
  | nil => exact ExtB.rfl m
  | cons v rest ih =>
    obtain ⟨p, s⟩ := v
    simp only [budgetWalk]
    cases hstep : stepVisit mf m p s with
    | mk m1 d =>
      cases d with
      | none =>
        have h1 : ExtB m m1 := by
          have := stepVisit_ext mf m p s; rw [hstep] at this; exact this
        exact h1.comp (ih m1)
      | some d0 =>
        have h1 : ExtB m m1 := by
          have := stepVisit_ext mf m p s; rw [hstep] at this; exact this
        exact h1

theorem budgetWalk_fresh {mf : Nat} {vs : List (Option Node × Schedule)} {m : BMap}
    {x : Node} (hx : x ∉ flatNodes vs) (h : lookupB m x = none) :
    lookupB (budgetWalk mf vs m).1 x = none := by
  induction vs generalizing m with
  | nil => exact h
  | cons v rest ih =>
    obtain ⟨p, s⟩ := v
    have hxs : x ∉ s.nodes := fun hm =>
      hx (List.mem_flatMap.mpr ⟨(p, s), List.mem_cons_self _ _, hm⟩)
    have hxr : x ∉ flatNodes rest := fun hm => by
      rcases List.mem_flatMap.mp hm with ⟨w, hw, hxw⟩
      exact hx (List.mem_flatMap.mpr ⟨w, List.mem_cons_of_mem _ hw, hxw⟩)
    simp only [budgetWalk]
    cases hstep : stepVisit mf m p s with
    | mk m1 d =>
      have h1 : lookupB m1 x = none := by
        have := @stepVisit_fresh mf m p s x hxs h; rw [hstep] at this
        exact this
      cases d with
      | none => exact ih hxr h1
      | some d0 => exact h1

/-- The full walk, when it completes without interruption, records the budget
formula of every visited schedule's nodes, where the effective schedule
factor is read off the final map. -/
theorem budgetWalk_spec {mf : Nat} {vs : List (Option Node × Schedule)}
    {m m2 : BMap}
    (hrun : budgetWalk mf vs m = (m2, none))
    (hnd : (flatNodes vs).Nodup)
    (hfresh : ∀ n ∈ flatNodes vs, lookupB m n = none) :
    ∀ pv ∈ vs, ∃ sf, schedFactor mf m2 pv.1 pv.2 = some sf ∧
      ∃ sc, pv.2.complexity = some sc ∧
        ∀ n ∈ pv.2.nodes, ∃ nc, n.complexity = some nc ∧
          lookupB m2 n = some (max 1 (sf * nc / sc)) := by
  induction vs generalizing m with
  | nil => intro pv hpv; cases hpv
  | cons v rest ih =>
    obtain ⟨p, s⟩ := v
    have hndS : s.nodes.Nodup := by
      have : flatNodes ((p, s) :: rest) = s.nodes ++ flatNodes rest := by
        simp [flatNodes]
      rw [this] at hnd
      exact hnd.of_append_left
    have hndR : (flatNodes rest).Nodup := by
      have : flatNodes ((p, s) :: rest) = s.nodes ++ flatNodes rest := by
        simp [flatNodes]
      rw [this] at hnd
      exact hnd.of_append_right
    have hdisj : ∀ n ∈ flatNodes rest, n ∉ s.nodes := by
      have heq : flatNodes ((p, s) :: rest) = s.nodes ++ flatNodes rest := by
        simp [flatNodes]
      rw [heq] at hnd
      intro n hn hns
      exact (List.disjoint_of_nodup_append hnd) hns hn
    simp only [budgetWalk] at hrun
    cases hstep : stepVisit mf m p s with
    | mk m1 d =>
      rw [hstep] at hrun
      cases d with
      | some d0 =>
        have hx : ((m1, some d0) : BMap × Option Diag) = (m2, none) := hrun
        simp only [Prod.mk.injEq] at hx
        cases hx.2
      | none =>
        have hrun2 : budgetWalk mf rest m1 = (m2, none) := hrun
        have hfreshS : ∀ n ∈ s.nodes, lookupB m n = none := fun n hn =>
          hfresh n (List.mem_flatMap.mpr ⟨(p, s), List.mem_cons_self _ _, hn⟩)
        have hfreshR : ∀ n ∈ flatNodes rest, lookupB m1 n = none := by
          intro n hn
          have hmn : lookupB m n = none := by
            rcases List.mem_flatMap.mp hn with ⟨w, hw, hnw⟩
            exact hfresh n (List.mem_flatMap.mpr ⟨w, List.mem_cons_of_mem _ hw, hnw⟩)
          have := @stepVisit_fresh mf m p s n (hdisj n hn) hmn
          rw [hstep] at this
          exact this
        have hextFinal : ExtB m1 m2 := by
          have := budgetWalk_ext mf rest m1; rw [hrun2] at this; exact this
        intro pv hpv
        rcases List.mem_cons.mp hpv with hpv0 | hpvr
        · subst hpv0
          obtain ⟨sf, hsf, sc, hsc, hnodes⟩ := stepVisit_spec hstep hndS hfreshS
          refine ⟨sf, ?_, sc, hsc, ?_⟩
          · have hext01 : ExtB m m1 := by
              have := stepVisit_ext mf m p s; rw [hstep] at this; exact this
            exact schedFactor_mono (hext01.comp hextFinal) hsf
          · intro n hn
            obtain ⟨nc, hnc, hlook⟩ := hnodes n hn
            exact ⟨nc, hnc, hextFinal n _ hlook⟩
        · exact ih hrun2 hndR hfreshR pv hpvr

/-- All values ever inserted into the budget map are of the form
`max 1 _`, hence at least `1`. -/
theorem stepNodes_lb (sf sc : Nat) (ns : List Node) (m : BMap)
    (hm : ∀ x b, lookupB m x = some b → 1 ≤ b) :
    ∀ x b, lookupB (stepNodes sf sc ns m).1 x = some b → 1 ≤ b := by
  induction ns generalizing m with
  | nil => exact hm
  | cons n rest ih =>
    simp only [stepNodes]
    cases n.complexity with
    | none => exact hm
    | some nc =>
      refine ih _ ?_
      intro x b hx
      unfold insertNew at hx
      cases hmn : lookupB m n with
      | some u => rw [hmn] at hx; exact hm x b hx
      | none =>
        rw [hmn] at hx
        simp only [lookupB] at hx
        by_cases hnx : n = x
        · simp only [hnx, if_pos rfl] at hx
          cases hx
          exact Nat.le_max_left 1 _
        · rw [if_neg hnx] at hx
          exact hm x b hx

theorem stepVisit_lb (mf : Nat) (m : BMap) (p : Option Node) (s : Schedule)
    (hm : ∀ x b, lookupB m x = some b → 1 ≤ b) :
    ∀ x b, lookupB (stepVisit mf m p s).1 x = some b → 1 ≤ b := by
  cases p with
  | none =>
    simp only [stepVisit, stepSched]
    cases s.complexity with
    | none => exact hm
    | some sc => exact stepNodes_lb _ _ _ _ hm
  | some pn =>
    simp only [stepVisit]
    cases lookupB m pn with
    | none => exact hm
    | some pb =>
      simp only [stepSched]
      cases s.complexity with
      | none => exact hm
      | some sc => exact stepNodes_lb _ _ _ _ hm

/-- Decomposition of an interrupted walk: a successfully processed prefix, a
failing visit, and an unprocessed suffix. -/
theorem budgetWalk_interrupted {mf : Nat} {vs : List (Option Node × Schedule)}
    {m m2 : BMap} {d : Diag}
    (hrun : budgetWalk mf vs m = (m2, some d)) :
    ∃ pre p s post mPre, vs = pre ++ (p, s) :: post ∧
      budgetWalk mf pre m = (mPre, none) ∧
      stepVisit mf mPre p s = (m2, some d) := by
  induction vs generalizing m with
  | nil => cases hrun
  | cons v rest ih =>
    obtain ⟨p0, s0⟩ := v
    simp only [budgetWalk] at hrun
    cases hstep : stepVisit mf m p0 s0 with
    | mk m1 dd =>
      rw [hstep] at hrun
      cases dd with
      | none =>
        have hrun2 : budgetWalk mf rest m1 = (m2, some d) := hrun
        obtain ⟨pre, p, s, post, mPre, heq, hpre, hfail⟩ := ih hrun2
        refine ⟨(p0, s0) :: pre, p, s, post, mPre, by rw [heq, List.cons_append], ?_, hfail⟩
        show (match stepVisit mf m p0 s0 with
          | (m3, none) => budgetWalk mf pre m3
          | (m3, some d0) => (m3, some d0)) = (mPre, none)
        rw [hstep]
        exact hpre
      | some d0 =>
        have hx : ((m1, some d0) : BMap × Option Diag) = (m2, some d) := hrun
        simp only [Prod.mk.injEq, Option.some.injEq] at hx
        exact ⟨[], p0, s0, rest, m, rfl, rfl, by rw [hstep, hx.1, hx.2]⟩

theorem budgetWalk_lb (mf : Nat) (vs : List (Option Node × Schedule)) (m : BMap)
    (hm : ∀ x b, lookupB m x = some b → 1 ≤ b) :
    ∀ x b, lookupB (budgetWalk mf vs m).1 x = some b → 1 ≤ b := by
  induction vs generalizing m with
  | nil => exact hm
  | cons v rest ih =>
    obtain ⟨p, s⟩ := v
    simp only [budgetWalk]
    cases hstep : stepVisit mf m p s with
    | mk m1 d =>
      have h1 : ∀ x b, lookupB m1 x = some b → 1 ≤ b := by
        have := stepVisit_lb mf m p s hm; rw [hstep] at this; exact this
      cases d with
      | none => exact ih m1 h1
      | some d0 => exact h1

/-! ## Claim C1 -/

/-- C1: for every schedule visited by an uninterrupted
`getNodeParallelFactorMap` run, each contained node's recorded budget equals
`max 1 (effectiveScheduleBudget * nodeComplexity / scheduleComplexity)`,
where the effective schedule budget is `maxUnrollFactor` for a schedule with
no parent node and otherwise the parent node's recorded budget multiplied by
the `increase` attribute and then divided by the `decrease` attribute; in
particular the complexities are all available, and every recorded budget is
at least `1`. -/
theorem c1_budget_formula (mf : Nat) (f : Func) (m : BMap)
    (hrun : getNodeParallelFactorMap mf f = (m, none))
    (hnd : (flatNodes f.visits).Nodup) :
    (∀ pv ∈ f.visits, ∃ sf, schedFactor mf m pv.1 pv.2 = some sf ∧
      ∃ sc, pv.2.complexity = some sc ∧
        ∀ n ∈ pv.2.nodes, ∃ nc, n.complexity = some nc ∧
          lookupB m n = some (max 1 (sf * nc / sc))) ∧
    (∀ x b, lookupB m x = some b → 1 ≤ b) := by
  constructor
  · exact budgetWalk_spec hrun hnd (fun n _ => rfl)
  · intro x b hx
    refine budgetWalk_lb mf f.visits [] (fun y c hy => by cases hy) x b ?_
    have h1 : (getNodeParallelFactorMap mf f).1 = m := congrArg Prod.fst hrun
    exact (show (budgetWalk mf f.visits []).1 = m from h1) ▸ hx

/-- Witness for C1 at the concrete input `c1F` with root budget `8`: the
recorded budgets are `floor(8 * 30 / 40) = 6` and `floor(8 * 10 / 40) = 2`. -/
theorem c1_budget_formula_witness :
    getNodeParallelFactorMap 8 c1F = ([(c1n2, 2), (c1n1, 6)], none) ∧
    (flatNodes c1F.visits).Nodup ∧
    ((∀ pv ∈ c1F.visits, ∃ sf,
        schedFactor 8 [(c1n2, 2), (c1n1, 6)] pv.1 pv.2 = some sf ∧
        ∃ sc, pv.2.complexity = some sc ∧
          ∀ n ∈ pv.2.nodes, ∃ nc, n.complexity = some nc ∧
            lookupB [(c1n2, 2), (c1n1, 6)] n = some (max 1 (sf * nc / sc))) ∧
      (∀ x b, lookupB [(c1n2, 2), (c1n1, 6)] x = some b → 1 ≤ b)) :=
  ⟨by decide, by decide, c1_budget_formula 8 c1F _ (by decide) (by decide)⟩

/-! ## Claim C6 -/

/-- C6 counterexample: at the concrete input `c6F` the walk is interrupted
(the nested schedule `c6T` has no available complexity, and the diagnostic
names it), yet `runOnOperation` does not treat the failure as fatal: it
proceeds to the downstream optimization with the partially computed budget
map and performs a non-empty list of loop transformations. -/
theorem c6_counterexample :
    (getNodeParallelFactorMap 8 c6F).2 = some (Diag.schedErr c6T) ∧
    (runPass c6cfg c6F).map List.isEmpty = some false := by
  constructor
  · decide
  · decide

/-- C6 amended: when the budget traversal fails, it aborts at the failing
visit — the diagnostic carries the offending node or schedule, and no
budget is recorded for any node of a schedule visited after the failure —
but the failure is not fatal to the pass invocation: `runOnOperation`
ignores it and the downstream optimization proceeds on the partially
computed budget map. -/
theorem c6_amended :
    (∀ mf vs m2 d, budgetWalk mf vs [] = (m2, some d) →
      (flatNodes vs).Nodup →
      ∃ pre p s post mPre, vs = pre ++ (p, s) :: post ∧
        budgetWalk mf pre [] = (mPre, none) ∧
        stepVisit mf mPre p s = (m2, some d) ∧
        ∀ n ∈ flatNodes post, lookupB m2 n = none) ∧
    (∀ cfg f, cfg.correlationAware = false →
      runPass cfg f = some
        (((getNodeParallelFactorMap cfg.maxUnrollFactor f).1).flatMap
          (fun pr => applyNaiveLoopUnroll cfg pr.1 pr.2))) := by
  constructor
  · intro mf vs m2 d hrun hnd
    obtain ⟨pre, p, s, post, mPre, heq, hpre, hfail⟩ := budgetWalk_interrupted hrun
    refine ⟨pre, p, s, post, mPre, heq, hpre, hfail, ?_⟩
    intro n hn
    have hflat : flatNodes vs = flatNodes pre ++ (s.nodes ++ flatNodes post) := by
      rw [heq]
      simp [flatNodes]
    rw [hflat] at hnd
    have hnpre : n ∉ flatNodes pre := by
      intro hmem
      exact (List.disjoint_of_nodup_append hnd) hmem
        (List.mem_append_right _ hn)
    have hns : n ∉ s.nodes := by
      intro hmem
      exact (List.disjoint_of_nodup_append hnd.of_append_right) hmem hn
    have hmPre : lookupB mPre n = none := by
      have := @budgetWalk_fresh mf pre ([] : BMap) n hnpre rfl
      rw [hpre] at this
      exact this
    have := @stepVisit_fresh mf mPre p s n hns hmPre
    rw [hfail] at this
    exact this
  · intro cfg f hcorr
    simp [runPass, hcorr]

/-- Witness for C6 amended, applying both parts at the concrete input
`c6F`. -/
theorem c6_amended_witness :
    ((flatNodes c6F.visits).Nodup ∧
      (∃ pre p s post mPre,
        c6F.visits = pre ++ (p, s) :: post ∧
        budgetWalk 8 pre [] = (mPre, none) ∧
        stepVisit 8 mPre p s = ([(c6n2, 2), (c6n1, 6)], some (Diag.schedErr c6T)) ∧
        ∀ n ∈ flatNodes post, lookupB [(c6n2, 2), (c6n1, 6)] n = none)) ∧
    c6cfg.correlationAware = false ∧
    runPass c6cfg c6F = some
      (((getNodeParallelFactorMap c6cfg.maxUnrollFactor c6F).1).flatMap
        (fun pr => applyNaiveLoopUnroll c6cfg pr.1 pr.2)) :=
  ⟨⟨by decide, c6_amended.1 8 c6F.visits [(c6n2, 2), (c6n1, 6)]
      (Diag.schedErr c6T) (by decide) (by decide)⟩,
    rfl, c6_amended.2 c6cfg c6F rfl⟩

/-! ## Claim C10 -/

/-- C10: the per-node budget computation divides by the schedule complexity
with no guard against a zero divisor.  The instrumented semantics
`nodeBudgetChecked` flags exactly divisor `0` and agrees with the formula
under the unstated precondition of a strictly positive schedule
complexity; at the concrete input `c10F` — a schedule with available
aggregate complexity `0` and one node — the instrumented walk reaches the
division by zero, while the unguarded computation proceeds. -/
theorem c10_zero_divisor :
    (∀ sf nc, nodeBudgetChecked sf nc 0 = none) ∧
    (∀ sf nc sc, 0 < sc →
      nodeBudgetChecked sf nc sc = some (max 1 (sf * nc / sc))) ∧
    budgetWalkChecked 4 c10F.visits [] = none ∧
    budgetWalk 4 c10F.visits [] = ([(c10n, 1)], none) := by
  refine ⟨fun sf nc => rfl, fun sf nc sc h => ?_, by decide, by decide⟩
  unfold nodeBudgetChecked
  rw [if_neg (Nat.pos_iff_ne_zero.mp h)]

/-- Witness for C10, discharging the positivity hypothesis at `sc = 2`. -/
theorem c10_zero_divisor_witness :
    (0 < 2 ∧ nodeBudgetChecked 4 5 2 = some (max 1 (4 * 5 / 2))) ∧
    nodeBudgetChecked 4 5 0 = none :=
  ⟨⟨by decide, c10_zero_divisor.2.1 4 5 2 (by decide)⟩, c10_zero_divisor.1 4 5⟩

/-! ## Lemmas about the unroll-factor map and the correlation loop -/

theorem lookupU_setU_self (m : UMap) (n : Node) (v : List Nat) :
    lookupU (setU m n v) n = some v := by
  induction m with
  | nil => simp [setU, lookupU]
  | cons kv t ih =>
    obtain ⟨k, w⟩ := kv
    simp only [setU]
    by_cases hk : k = n
    · simp [hk, lookupU]
    · simp [hk, lookupU, ih]

theorem lookupU_setU_other (m : UMap) {n t : Node} (v : List Nat) (ht : t ≠ n) :
    lookupU (setU m n v) t = lookupU m t := by
  induction m with
  | nil =>
    have : ¬ n = t := fun h => ht h.symm
    simp [setU, lookupU, this]
  | cons kv tl ih =>
    obtain ⟨k, w⟩ := kv
    simp only [setU]
    by_cases hk : k = n
    · subst hk
      have : ¬ k = t := fun h => ht h.symm
      simp [lookupU, this]
    · simp only [if_neg hk, lookupU]
      by_cases hkt : k = t
      · simp [hkt]
      · simp [hkt, ih]

/-- The pre-seeding loop never overwrites an existing binding (first writer
wins among pre-seed writes). -/
theorem preSeedEdges_preserve (factors : List Nat) (es : List CorrEdge)
    (m : UMap) {t : Node} {v : List Nat} (h : lookupU m t = some v) :
    lookupU (preSeedEdges factors es m).1 t = some v := by
  induction es generalizing m with
  | nil => exact h
  | cons e rest ih =>
    simp only [preSeedEdges]
    by_cases hs : (lookupU m e.target).isSome
    · simp only [hs, if_true]
      exact ih m h
    · simp only [hs, if_false]
      have hne : t ≠ e.target := by
        intro hte
        rw [← hte] at hs
        exact hs (h ▸ rfl)
      exact ih _ ((lookupU_setU_other m _ hne).trans h)

/-! ## Claim C2 -/

/-- C2 counterexample: at the concrete input `c2F` (nodes `c2A` and `c2B`
linked by an identity-mapped edge, `c2A` ranked first with budget `4`,
`c2B` with budget `8`), node `c2B` is pre-seeded with `c2A`'s translated
vector `[4]` and is nevertheless revisited by the ranked loop afterwards,
which overwrites its entry with the redistribution `[8]` of its own budget
— so the recorded vector is recomputed and differs from the translated
vector, contradicting the claim. -/
theorem c2_counterexample :
    (corrUnify c2cfg c2F c2bm).map (fun r => revisitedAfterRecord c2B r.2) =
      some true ∧
    (corrUnify c2cfg c2F c2bm).map
      (fun r => r.2.any (fun e => e = CorrEvent.preSeeded c2B [4])) = some true ∧
    (corrUnify c2cfg c2F c2bm).map (fun r => lookupU r.1 c2B) = some (some [8]) := by
  refine ⟨by decide, by decide, by decide⟩

/-- C2 amended: pre-seed writes never overwrite an already recorded vector
(first writer wins among pre-seed writes), and a pre-seeded vector is
translated unchanged into the target's entry at pre-seed time; however a
node with a non-empty correlation list is itself processed when its rank
comes up even if a vector was already recorded for it: the recorded vector
is then reused as the base and the node's entry is overwritten with the
redistribution of its own parallel factor over that base. -/
theorem c2_amended :
    (∀ factors es m (t : Node) v, lookupU m t = some v →
      lookupU (preSeedEdges factors es m).1 t = some v) ∧
    (∀ cfg bm corrOf m (n : Node) v, (corrOf n).isEmpty = false →
      lookupU m n = some v →
      ∃ m2 evs, processNode cfg bm corrOf m n = some (m2, evs) ∧
        CorrEvent.processed n v
          (distributeOver (nodeParallelFactor cfg bm n) v n.loopBand.loops.length)
          ∈ evs ∧
        lookupU m2 n = some
          (distributeOver (nodeParallelFactor cfg bm n) v n.loopBand.loops.length)) := by
  constructor
  · intro factors es m t v h
    exact preSeedEdges_preserve factors es m h
  · intro cfg bm corrOf m n v hne hv
    unfold processNode
    simp only [hne, Bool.false_eq_true, if_false, hv, List.length_replicate, if_pos rfl]
    refine ⟨_, _, rfl, ?_, ?_⟩
    · exact List.mem_cons_self _ _
    · exact preSeedEdges_preserve _ _ _ (lookupU_setU_self m n _)

/-- Witness for C2 amended, applying the first part at a concrete map and the
second at node `c2B` pre-seeded with `[4]`. -/
theorem c2_amended_witness :
    (lookupU [(c2B, [4])] c2B = some [4] ∧
      lookupU (preSeedEdges [9] [{ target := c2B, cmap := [0] }] [(c2B, [4])]).1 c2B
        = some [4]) ∧
    ((corrOfFun c2F c2B).isEmpty = false ∧
      ∃ m2 evs,
        processNode c2cfg c2bm (corrOfFun c2F) [(c2B, [4])] c2B = some (m2, evs) ∧
        CorrEvent.processed c2B [4]
          (distributeOver (nodeParallelFactor c2cfg c2bm c2B) [4]
            c2B.loopBand.loops.length) ∈ evs ∧
        lookupU m2 c2B = some
          (distributeOver (nodeParallelFactor c2cfg c2bm c2B) [4]
            c2B.loopBand.loops.length)) :=
  ⟨⟨by decide, c2_amended.1 [9] [{ target := c2B, cmap := [0] }] [(c2B, [4])] c2B [4]
      (by decide)⟩,
    ⟨by decide, c2_amended.2 c2cfg c2bm (corrOfFun c2F) [(c2B, [4])] c2B [4]
      (by decide) (by decide)⟩⟩

/-! ## Claim C9 -/

/-- C9: the line-180 assertion `assert(factors.size() == band.size())`
compares the freshly initialized all-ones vector — not the reused
pre-seeded vector — against the band size, so it can never fail
(`processNode` never aborts, for any recorded vector of any length), and a
pre-seeded vector whose length differs from the node's loop-band dimension
count is silently reused as the base: at the concrete input `c9F`, node
`c9B` with a one-dimensional band is processed with the two-entry base
`[2, 2]` and no assertion failure occurs. -/
theorem c9_assert_vacuous :
    (∀ cfg bm corrOf m (n : Node), processNode cfg bm corrOf m n ≠ none) ∧
    (corrUnify c9cfg c9F c9bm).map (fun r => hasSilentMismatch r.2) = some true ∧
    (corrUnify c9cfg c9F c9bm).map
      (fun r => r.2.any (fun e => e = CorrEvent.processed c9B [2, 2] [2])) =
      some true ∧
    c9B.loopBand.loops.length = 1 := by
  refine ⟨?_, by decide, by decide, by decide⟩
  intro cfg bm corrOf m n
  unfold processNode
  by_cases hne : (corrOf n).isEmpty
  · simp [hne]
  · simp only [Bool.not_eq_true] at hne
    cases hL : lookupU m n with
    | none => simp [hne, hL]
    | some v => simp [hne, hL, List.length_replicate]

/-! ## Claim C4 -/

/-- Every action emitted by the per-band naive unroll body is an
unroll-and-jam. -/
theorem naiveBandAction_unrollJam {cfg : Config} {uf : Nat} {n : Node}
    {band : LoopBand} {a : Action} (h : naiveBandAction cfg uf n band = some a) :
    a.isUnrollJam = true := by
  unfold naiveBandAction at h
  by_cases hpt : cfg.pointLoopOnly && !band.affectsExternal
  · rw [if_pos hpt] at h
    cases hsp : band.tilePointSplit with
    | none => rw [hsp] at h; cases h
    | some tp =>
      obtain ⟨t, pt⟩ := tp
      rw [hsp] at h
      by_cases hpe : pt.isEmpty
      · simp only [hpe, if_true] at h; cases h
      · simp only [hpe, Bool.false_eq_true, if_false, Option.some.injEq] at h
        subst h; rfl
  · rw [if_neg hpt] at h
    cases h
    rfl

/-- C4: over the correlation-unified map, a recorded node whose band affects
an external buffer is dispatched to vectorization — a trivial success with
no mutation when all factors are `1`, no mutation at all when some loop of
the band is not parallel, and the vectorization otherwise — while every
other recorded node is unrolled-and-jammed; every action of the
unassigned-node fallback (and of naive unrolling generally, whose factor is
the node's budget only when the pass is complexity aware) is an
unroll-and-jam, never a vectorization. -/
theorem c4_dispatch :
    (∀ (n : Node) fs, n.loopBand.affectsExternal = false →
      dispatchOne n fs = [Action.unrollJam n.id n.loopBand.loops fs]) ∧
    (∀ (n : Node) fs, n.loopBand.affectsExternal = true →
      fs.all (fun f => f = 1) = true → dispatchOne n fs = []) ∧
    (∀ (n : Node) fs, n.loopBand.affectsExternal = true →
      fs.all (fun f => f = 1) = false →
      n.loopBand.loops.all parallelLoop = false → dispatchOne n fs = []) ∧
    (∀ (n : Node) fs, n.loopBand.affectsExternal = true →
      fs.all (fun f => f = 1) = false →
      n.loopBand.loops.all parallelLoop = true →
      dispatchOne n fs = [Action.vectorize n.id n.loopBand.loops fs]) ∧
    (∀ cfg (n : Node) pf a, a ∈ applyNaiveLoopUnroll cfg n pf →
      a.isUnrollJam = true) ∧
    (∀ cfg bm umap a, a ∈ naiveFallback cfg bm umap → a.isUnrollJam = true) ∧
    (∀ umap a, a ∈ dispatchRecorded umap → ∃ p ∈ umap, a ∈ dispatchOne p.1 p.2) := by
  refine ⟨?_, ?_, ?_, ?_, ?_, ?_, ?_⟩
  · intro n fs h
    simp [dispatchOne, h]
  · intro n fs h h1
    simp [dispatchOne, h, applyLoopVectorization, h1]
  · intro n fs h h1 hp
    simp [dispatchOne, h, applyLoopVectorization, h1, hp]
  · intro n fs h h1 hp
    simp [dispatchOne, h, applyLoopVectorization, h1, hp]
  · intro cfg n pf a ha
    obtain ⟨band, _, hband⟩ := List.mem_filterMap.mp ha
    exact naiveBandAction_unrollJam hband
  · intro cfg bm umap a ha
    obtain ⟨p, _, hp⟩ := List.mem_flatMap.mp ha
    by_cases hu : (lookupU umap p.1).isSome
    · rw [if_pos hu] at hp; cases hp
    · rw [if_neg hu] at hp
      obtain ⟨band, _, hband⟩ := List.mem_filterMap.mp hp
      exact naiveBandAction_unrollJam hband
  · intro umap a ha
    obtain ⟨p, hpm, hp⟩ := List.mem_flatMap.mp ha
    exact ⟨p, hpm, hp⟩

/-- Witness for C4, instantiating every conjunct at concrete nodes and
actions. -/
theorem c4_dispatch_witness :
    (c4nInt.loopBand.affectsExternal = false ∧
      dispatchOne c4nInt [2] = [Action.unrollJam c4nInt.id c4nInt.loopBand.loops [2]]) ∧
    (c4nExt.loopBand.affectsExternal = true ∧ ([1] : List Nat).all (fun f => f = 1) = true ∧
      dispatchOne c4nExt [1] = []) ∧
    (c4nExtSeq.loopBand.affectsExternal = true ∧
      ([2] : List Nat).all (fun f => f = 1) = false ∧
      c4nExtSeq.loopBand.loops.all parallelLoop = false ∧
      dispatchOne c4nExtSeq [2] = []) ∧
    (c4nExt.loopBand.loops.all parallelLoop = true ∧
      dispatchOne c4nExt [2] = [Action.vectorize c4nExt.id c4nExt.loopBand.loops [2]]) ∧
    (Action.unrollJam c4nInt.id [parLoop] [2] ∈ applyNaiveLoopUnroll c4cfg c4nInt 2 ∧
      (Action.unrollJam c4nInt.id [parLoop] [2]).isUnrollJam = true) ∧
    (Action.unrollJam c4nInt.id [parLoop] [2] ∈ naiveFallback c4cfg [(c4nInt, 2)] [] ∧
      (Action.unrollJam c4nInt.id [parLoop] [2]).isUnrollJam = true) ∧
    (Action.vectorize c4nExt.id [parLoop] [2] ∈ dispatchRecorded [(c4nExt, [2])] ∧
      ∃ p ∈ ([(c4nExt, [2])] : UMap),
        Action.vectorize c4nExt.id [parLoop] [2] ∈ dispatchOne p.1 p.2) :=
  ⟨⟨by decide, c4_dispatch.1 c4nInt [2] (by decide)⟩,
    ⟨by decide, by decide, c4_dispatch.2.1 c4nExt [1] (by decide) (by decide)⟩,
    ⟨by decide, by decide, by decide,
      c4_dispatch.2.2.1 c4nExtSeq [2] (by decide) (by decide) (by decide)⟩,
    ⟨by decide, c4_dispatch.2.2.2.1 c4nExt [2] (by decide) (by decide) (by decide)⟩,
    ⟨by decide, c4_dispatch.2.2.2.2.1 c4cfg c4nInt 2 _ (by decide)⟩,
    ⟨by decide, c4_dispatch.2.2.2.2.2.1 c4cfg [(c4nInt, 2)] [] _ (by decide)⟩,
    ⟨by decide, c4_dispatch.2.2.2.2.2.2 [(c4nExt, [2])] _ (by decide)⟩⟩

/-! ## Claim C5 -/

/-- C5 counterexample: with `pointLoopOnly` configured, node `c5n` owns two
bands that do not affect external buffers — one whose tile/point split
fails, one whose split yields an empty point band.  The claim demands that
both fall back to unroll-and-jam on the full original band; the code skips
both bands entirely (`continue`) and performs no transformation at all. -/
theorem c5_counterexample :
    c5cfg.pointLoopOnly = true ∧
    c5n.bands = [c5BandNoSplit, c5BandEmptyPoint] ∧
    c5BandNoSplit.affectsExternal = false ∧
    c5BandNoSplit.tilePointSplit = none ∧
    c5BandEmptyPoint.affectsExternal = false ∧
    c5BandEmptyPoint.tilePointSplit = some ([parLoop], []) ∧
    applyNaiveLoopUnroll c5cfg c5n 4 = [] := by
  refine ⟨rfl, rfl, rfl, rfl, rfl, rfl, by decide⟩

/-- C5 amended: during naive unroll with `pointLoopOnly` configured, a band
that does not affect an external buffer is replaced by its point sub-band
when the tile/point split succeeds with a non-empty point band, and is
skipped entirely — no unroll-and-jam is applied to it — when the split
fails or the point band is empty; the full original band is used exactly
when `pointLoopOnly` is unset or the band affects an external buffer. -/
theorem c5_amended :
    (∀ cfg uf (n : Node) band, cfg.pointLoopOnly = true →
      band.affectsExternal = false → band.tilePointSplit = none →
      naiveBandAction cfg uf n band = none) ∧
    (∀ cfg uf (n : Node) band t, cfg.pointLoopOnly = true →
      band.affectsExternal = false → band.tilePointSplit = some (t, []) →
      naiveBandAction cfg uf n band = none) ∧
    (∀ cfg uf (n : Node) band t pt, cfg.pointLoopOnly = true →
      band.affectsExternal = false → band.tilePointSplit = some (t, pt) →
      pt ≠ [] →
      naiveBandAction cfg uf n band = some (Action.unrollJam n.id pt
        (distributeOver uf (List.replicate pt.length 1) pt.length))) ∧
    (∀ cfg uf (n : Node) band,
      cfg.pointLoopOnly = false ∨ band.affectsExternal = true →
      naiveBandAction cfg uf n band = some (Action.unrollJam n.id band.loops
        (distributeOver uf (List.replicate band.loops.length 1)
          band.loops.length))) := by
  refine ⟨?_, ?_, ?_, ?_⟩
  · intro cfg uf n band hp he hs
    simp [naiveBandAction, hp, he, hs]
  · intro cfg uf n band t hp he hs
    simp [naiveBandAction, hp, he, hs]
  · intro cfg uf n band t pt hp he hs hne
    simp [naiveBandAction, hp, he, hs, List.isEmpty_iff, hne]
  · intro cfg uf n band h
    have : (cfg.pointLoopOnly && !band.affectsExternal) = false := by
      rcases h with h | h <;> simp [h]
    simp [naiveBandAction, this]

/-- Witness for C5 amended, instantiating all four cases at concrete
bands. -/
theorem c5_amended_witness :
    (c5cfg.pointLoopOnly = true ∧ c5BandNoSplit.affectsExternal = false ∧
      c5BandNoSplit.tilePointSplit = none ∧
      naiveBandAction c5cfg 4 c5n c5BandNoSplit = none) ∧
    (c5BandEmptyPoint.tilePointSplit = some ([parLoop], []) ∧
      naiveBandAction c5cfg 4 c5n c5BandEmptyPoint = none) ∧
    (naiveBandAction c5cfg 4 c5n
        { loops := [parLoop, parLoop], affectsExternal := false,
          tilePointSplit := some ([parLoop], [parLoop]) } =
      some (Action.unrollJam c5n.id [parLoop]
        (distributeOver 4 (List.replicate 1 1) 1))) ∧
    (naiveBandAction c5cfg 4 c5n
        { loops := [parLoop], affectsExternal := true, tilePointSplit := none } =
      some (Action.unrollJam c5n.id [parLoop]
        (distributeOver 4 (List.replicate 1 1) 1))) :=
  ⟨⟨rfl, rfl, rfl, c5_amended.1 c5cfg 4 c5n c5BandNoSplit rfl rfl rfl⟩,
    ⟨rfl, c5_amended.2.1 c5cfg 4 c5n c5BandEmptyPoint [parLoop] rfl rfl rfl⟩,
    c5_amended.2.2.1 c5cfg 4 c5n _ [parLoop] [parLoop] rfl rfl rfl (by decide),
    c5_amended.2.2.2 c5cfg 4 c5n _ (Or.inr rfl)⟩

/-! ## Lemmas about the copy rewrites -/

theorem COp.opId_subst (o : COp) (a v : CVal) : (o.substOperands a v).opId = o.opId := by
  cases o <;> rfl

theorem COp.operands_subst (o : COp) (a v : CVal) :
    (o.substOperands a v).operands = o.operands.map (substVal a v) := by
  cases o <;> simp [COp.substOperands, COp.operands]

/-- The rewritten body's `find?` for a surviving id: order is preserved, so
the first op with that id is the substitution of the original first op. -/
theorem find?_rewrite (l : List COp) (b c j : Nat) (v : CVal)
    (hjb : j ≠ b) (hjc : j ≠ c) :
    ((l.filter (fun o => o.opId ≠ b && o.opId ≠ c)).map
      (fun o => o.substOperands (CVal.res b) v)).find? (fun o => o.opId = j) =
    (l.find? (fun o => o.opId = j)).map (fun o => o.substOperands (CVal.res b) v) := by
  induction l with
  | nil => rfl
  | cons o0 rest ih =>
    by_cases hb : o0.opId = b
    · have hfilter : (decide (o0.opId ≠ b) && decide (o0.opId ≠ c)) = false := by
        simp [hb]
      have hpred : (decide (o0.opId = j)) = false := by
        simp [hb]
        exact fun he => hjb he.symm
      rw [List.filter_cons, if_neg (by rw [hfilter]; exact Bool.false_ne_true),
        List.find?_cons, hpred]
      exact ih
    · by_cases hc : o0.opId = c
      · have hfilter : (decide (o0.opId ≠ b) && decide (o0.opId ≠ c)) = false := by
          simp [hc]
        have hpred : (decide (o0.opId = j)) = false := by
          simp [hc]
          exact fun he => hjc he.symm
        rw [List.filter_cons, if_neg (by rw [hfilter]; exact Bool.false_ne_true),
          List.find?_cons, hpred]
        exact ih
      · have hfilter : (decide (o0.opId ≠ b) && decide (o0.opId ≠ c)) = true := by
          simp [hb, hc]
        rw [List.filter_cons, if_pos hfilter, List.map_cons]
        by_cases hj : o0.opId = j
        · rw [List.find?_cons, List.find?_cons]
          simp [COp.opId_subst, hj]
        · rw [List.find?_cons, List.find?_cons]
          have h1 : (decide ((o0.substOperands (CVal.res b) v).opId = j)) = false := by
            simp [COp.opId_subst, hj]
          have h2 : (decide (o0.opId = j)) = false := by simp [hj]
          rw [h1, h2]
          exact ih

/-- The rewritten body's `find?` for a removed id is `none`. -/
theorem find?_rewrite_removed (l : List COp) (b c j : Nat) (v : CVal)
    (hj : j = b ∨ j = c) :
    ((l.filter (fun o => o.opId ≠ b && o.opId ≠ c)).map
      (fun o => o.substOperands (CVal.res b) v)).find? (fun o => o.opId = j) = none := by
  rw [List.find?_eq_none]
  intro o ho
  obtain ⟨o0, ho0, rfl⟩ := List.mem_map.mp ho
  have hf := (List.mem_filter.mp ho0).2
  simp only [ne_eq, Bool.and_eq_true, decide_eq_true_eq] at hf
  simp only [COp.opId_subst, decide_eq_true_eq]
  rcases hj with rfl | rfl
  · exact hf.1
  · exact hf.2

theorem getOp_rae_removed (fn : CFunc) (b c : Nat) (v : CVal) (j : Nat)
    (hj : j = b ∨ j = c) : getOp (replaceAndErase fn b c v) j = none :=
  find?_rewrite_removed fn.body b c j v hj

theorem getOp_rae_other (fn : CFunc) (b c : Nat) (v : CVal) (j : Nat)
    (hjb : j ≠ b) (hjc : j ≠ c) :
    getOp (replaceAndErase fn b c v) j =
      (getOp fn j).map (fun o => o.substOperands (CVal.res b) v) :=
  find?_rewrite fn.body b c j v hjb hjc

/-- After the rewrite, no remaining op references the removed buffer's
result (every occurrence was substituted away). -/
theorem referencesVal_replaceAndErase (fn : CFunc) (b c : Nat) {v : CVal}
    (hv : v ≠ CVal.res b) :
    referencesVal (replaceAndErase fn b c v) (CVal.res b) = false := by
  unfold referencesVal replaceAndErase
  rw [List.any_eq_false]
  intro o ho
  obtain ⟨o0, _, rfl⟩ := List.mem_map.mp ho
  rw [COp.operands_subst]
  simp only [List.mem_map, decide_eq_true_eq, not_exists, not_and]
  intro w hw heq
  unfold substVal at heq
  by_cases hwb : w = CVal.res b
  · rw [if_pos hwb] at heq
    exact hv heq
  · rw [if_neg hwb] at heq
    exact hwb heq

theorem valDefinedIn_replaceAndErase (fn : CFunc) (b c : Nat) (v : CVal) {w : CVal}
    (hw : valDefinedIn fn w = true) (hwb : w ≠ CVal.res b) (hwc : w ≠ CVal.res c) :
    valDefinedIn (replaceAndErase fn b c v) w = true := by
  cases w with
  | arg i => simpa [valDefinedIn, replaceAndErase] using hw
  | res j =>
    have hjb : j ≠ b := fun he => hwb (by rw [he])
    have hjc : j ≠ c := fun he => hwc (by rw [he])
    simp only [valDefinedIn] at hw ⊢
    rw [getOp_rae_other fn b c v j hjb hjc]
    cases hg : getOp fn j with
    | none => simp [hg] at hw
    | some o =>
      simp only [hg] at hw
      cases o with
      | buffer i sp iv => simp [hg, COp.substOperands]
      | view i sv => simp [hg, COp.substOperands]
      | copyOp i s0 t0 => simp at hw
      | user i os => simp at hw

/-- The rewrite leaves no dangling references when the input had none: every
operand of every remaining op is still defined. -/
theorem noDangling_replaceAndErase (fn : CFunc) (b c : Nat) {s t0 : CVal}
    (hnd : noDangling fn = true) (hcopy : getOp fn c = some (COp.copyOp c s t0))
    (hs : s ≠ CVal.res b) :
    noDangling (replaceAndErase fn b c s) = true := by
  have hmem : COp.copyOp c s t0 ∈ fn.body := List.mem_of_find?_eq_some hcopy
  have hval : ∀ o ∈ fn.body, ∀ w ∈ o.operands, valDefinedIn fn w = true := by
    intro o ho w hwmem
    have h1 := (List.all_eq_true.mp hnd) o ho
    exact (List.all_eq_true.mp h1) w hwmem
  have hsdef : valDefinedIn fn s = true := by
    refine hval _ hmem s ?_
    simp [COp.operands]
  have hnotc : ∀ w : CVal, valDefinedIn fn w = true → w ≠ CVal.res c := by
    intro w hwdef he
    subst he
    simp [valDefinedIn, hcopy] at hwdef
  unfold noDangling
  rw [List.all_eq_true]
  intro o ho
  obtain ⟨o0, ho0, rfl⟩ := List.mem_map.mp ho
  have ho0b : o0 ∈ fn.body := List.mem_of_mem_filter ho0
  rw [List.all_eq_true, COp.operands_subst]
  intro w hw
  obtain ⟨w0, hw0, rfl⟩ := List.mem_map.mp hw
  have hw0def : valDefinedIn fn w0 = true := hval o0 ho0b w0 hw0
  unfold substVal
  by_cases hwb : w0 = CVal.res b
  · rw [if_pos hwb]
    exact valDefinedIn_replaceAndErase fn b c s hsdef hs (hnotc s hsdef)
  · rw [if_neg hwb]
    exact valDefinedIn_replaceAndErase fn b c s hw0def hwb (hnotc w0 hw0def)

/-- Inversion of the outer copy dispatch: a successful match happens on a
present `memref.CopyOp`. -/
theorem mar_some_inv {fn : CFunc} {cid : Nat} {r : RewriteKind × CFunc}
    (h : matchAndRewrite fn cid = some r) :
    ∃ s t, getOp fn cid = some (COp.copyOp cid s t) ∧
      matchAndRewriteCore fn cid s t = some r := by
  unfold matchAndRewrite at h
  cases hop : getOp fn cid with
  | none => simp [hop] at h
  | some o =>
    cases o with
    | buffer i sp iv => simp [hop] at h
    | view i sv => simp [hop] at h
    | user i os => simp [hop] at h
    | copyOp i s t =>
      have hid : i = cid := by
        have := List.find?_some hop
        simpa [COp.opId] using this
      subst hid
      simp only [hop] at h
      exact ⟨s, t, rfl, h⟩

/-- Inversion of the precondition chain: a successful core match resolves
both operands and hands over to the branch part. -/
theorem core_some_inv {fn : CFunc} {cid : Nat} {s t : CVal} {r : RewriteKind × CFunc}
    (h : matchAndRewriteCore fn cid s t = some r) :
    ∃ src tgt, findBuffer fn s = some src ∧ findBuffer fn t = some tgt ∧
      matchAndRewriteBranches fn cid s t src tgt = some r := by
  unfold matchAndRewriteCore at h
  cases hms : memSpace fn s with
  | none => simp [hms] at h
  | some ssp =>
    simp only [hms] at h
    cases hmt : memSpace fn t with
    | none => simp [hmt] at h
    | some tsp =>
      simp only [hmt] at h
      by_cases hne : ssp ≠ tsp
      · rw [if_pos hne] at h; cases h
      · rw [if_neg hne] at h
        cases hfs : findBuffer fn s with
        | none => simp [hfs] at h
        | some src =>
          simp only [hfs] at h
          cases hft : findBuffer fn t with
          | none => simp [hft] at h
          | some tgt =>
            simp only [hft] at h
            refine ⟨src, tgt, rfl, rfl, ?_⟩
            by_cases hboth :
                definingBufferId fn src = none ∧ definingBufferId fn tgt = none
            · rw [if_pos hboth] at h; cases h
            · rw [if_neg hboth] at h
              by_cases hsu : (findBufferUsers fn src).all
                  (fun u => dominatesId fn u.opId cid) = true
              · rw [if_neg (not_not_intro hsu)] at h
                by_cases htu : (findBufferUsers fn tgt).all
                    (fun u => dominatesId fn cid u.opId) = true
                · rw [if_neg (not_not_intro htu)] at h
                  exact h
                · rw [if_pos htu] at h; cases h
              · rw [if_pos hsu] at h; cases h

/-- Inversion of the eliminate-target branch. -/
theorem branches_elimTarget_inv {fn : CFunc} {cid : Nat} {s t src tgt : CVal}
    {fn2 : CFunc}
    (h : matchAndRewriteBranches fn cid s t src tgt =
      some (RewriteKind.elimTarget, fn2)) :
    ∃ tb, definingBufferId fn tgt = some tb ∧ definingOpId t = some tb ∧
      (definingOpId s = none ∨
        (findBufferUsers fn tgt).all
          (fun u => dominatesId fn ((definingOpId s).getD 0) u.opId) = true) ∧
      fn2 = replaceAndErase fn tb cid s := by
  unfold matchAndRewriteBranches at h
  by_cases htc : elimTargetCond fn s t tgt
  · rw [if_pos htc] at h
    obtain ⟨h1, h2, h3⟩ := htc
    obtain ⟨tb, htb⟩ := Option.isSome_iff_exists.mp h1
    simp only [Option.some.injEq, Prod.mk.injEq, true_and] at h
    refine ⟨tb, htb, ?_, h3, ?_⟩
    · rw [← h2, htb]
    · rw [htb, Option.getD_some] at h
      exact h.symm
  · rw [if_neg htc] at h
    by_cases hsc : elimSourceCond fn s t src
    · rw [if_pos hsc] at h
      cases hiv : bufInitVal fn ((definingBufferId fn src).getD 0) with
      | some iv =>
        simp only [hiv] at h
        by_cases hbad : initTransferFailCond fn t tgt
        · rw [if_pos hbad] at h; cases h
        · rw [if_neg hbad] at h; simp at h
      | none => simp only [hiv] at h; simp at h
    · rw [if_neg hsc] at h; cases h

/-- Inversion of the eliminate-source branch. -/
theorem branches_elimSource_inv {fn : CFunc} {cid : Nat} {s t src tgt : CVal}
    {fn2 : CFunc}
    (h : matchAndRewriteBranches fn cid s t src tgt =
      some (RewriteKind.elimSource, fn2)) :
    ∃ sb, definingBufferId fn src = some sb ∧ definingOpId s = some sb ∧
      (definingOpId t = none ∨
        (findBufferUsers fn src).all
          (fun u => dominatesId fn ((definingOpId t).getD 0) u.opId) = true) ∧
      ((bufInitVal fn sb = none ∧ fn2 = replaceAndErase fn sb cid t) ∨
        (∃ iv tb, bufInitVal fn sb = some iv ∧ definingBufferId fn tgt = some tb ∧
          (bufInitVal fn tb = none ∨ definingOpId t = some tb) ∧
          fn2 = replaceAndErase (setBufInit fn tb iv) sb cid t)) := by
  unfold matchAndRewriteBranches at h
  by_cases htc : elimTargetCond fn s t tgt
  · rw [if_pos htc] at h; simp at h
  · rw [if_neg htc] at h
    by_cases hsc : elimSourceCond fn s t src
    · rw [if_pos hsc] at h
      obtain ⟨h1, h2, h3⟩ := hsc
      obtain ⟨sb, hsb⟩ := Option.isSome_iff_exists.mp h1
      have h2s : definingOpId s = some sb := by rw [← h2, hsb]
      cases hiv : bufInitVal fn ((definingBufferId fn src).getD 0) with
      | some iv =>
        simp only [hiv] at h
        by_cases hbad : initTransferFailCond fn t tgt
        · rw [if_pos hbad] at h; cases h
        · rw [if_neg hbad] at h
          simp only [Option.some.injEq, Prod.mk.injEq, true_and] at h
          have hbad2 : ¬ definingBufferId fn tgt = none ∧
              ((bufInitVal fn ((definingBufferId fn tgt).getD 0)).isSome = true →
                definingBufferId fn tgt = definingOpId t) := by
            unfold initTransferFailCond at hbad
            push_neg at hbad
            exact hbad
          obtain ⟨tb, htb⟩ := Option.ne_none_iff_exists'.mp hbad2.1
          rw [hsb, Option.getD_some] at hiv
          rw [hsb, Option.getD_some, htb, Option.getD_some] at h
          refine ⟨sb, hsb, h2s, h3, Or.inr ⟨iv, tb, hiv, htb, ?_, h.symm⟩⟩
          by_cases hti : (bufInitVal fn tb).isSome = true
          · refine Or.inr ?_
            have := hbad2.2 (by rw [htb, Option.getD_some]; exact hti)
            rw [htb] at this
            exact this.symm
          · exact Or.inl (Option.not_isSome_iff_eq_none.mp hti)
      | none =>
        simp only [hiv] at h
        simp only [Option.some.injEq, Prod.mk.injEq, true_and] at h
        rw [hsb, Option.getD_some] at hiv h
        exact ⟨sb, hsb, h2s, h3, Or.inl ⟨hiv, h.symm⟩⟩
    · rw [if_neg hsc] at h; cases h

/-- The init-transfer failure path of lines 132-134: when the eliminate-target
branch is not applicable, the eliminate-source condition holds, the source
buffer carries an initial value and the target cannot receive it, the
pattern fails. -/
theorem branches_initFail_none {fn : CFunc} {cid : Nat} {s t src tgt : CVal} {sb : Nat}
    (htc : ¬ elimTargetCond fn s t tgt) (hsc : elimSourceCond fn s t src)
    (hsb : definingBufferId fn src = some sb)
    (hiv : (bufInitVal fn sb).isSome = true)
    (hbad : initTransferFailCond fn t tgt) :
    matchAndRewriteBranches fn cid s t src tgt = none := by
  unfold matchAndRewriteBranches
  rw [if_neg htc, if_pos hsc, hsb, Option.getD_some]
  obtain ⟨iv, hiv2⟩ := Option.isSome_iff_exists.mp hiv
  simp only [hiv2]
  rw [if_pos hbad]

theorem setInitFun_opId (b : Nat) (iv : Nat) (o : COp) :
    (setInitFun b iv o).opId = o.opId := by
  cases o with
  | buffer i sp iv0 => by_cases hib : i = b <;> simp [setInitFun, hib, COp.opId]
  | view i sv => rfl
  | copyOp i s0 t0 => rfl
  | user i os => rfl

theorem getOp_setBufInit (fn : CFunc) (b : Nat) (iv : Nat) (j : Nat) :
    getOp (setBufInit fn b iv) j = (getOp fn j).map (setInitFun b iv) := by
  unfold getOp setBufInit
  rw [List.find?_map]
  have hpred : ((fun o : COp => decide (o.opId = j)) ∘ setInitFun b iv) =
      (fun o : COp => decide (o.opId = j)) := by
    funext o
    simp [Function.comp, setInitFun_opId]
  rw [hpred]

/-- Unfolding a resolved local buffer: the value is the result of a present
`BufferOp` with matching id. -/
theorem definingBufferId_some {fn : CFunc} {v : CVal} {tb : Nat}
    (h : definingBufferId fn v = some tb) :
    v = CVal.res tb ∧ ∃ sp iv0, getOp fn tb = some (COp.buffer tb sp iv0) := by
  cases v with
  | arg i => cases h
  | res i =>
    simp only [definingBufferId] at h
    cases hg : getOp fn i with
    | none => simp only [hg] at h; cases h
    | some o =>
      simp only [hg] at h
      cases o with
      | buffer b2 sp iv0 =>
        simp only [Option.some.injEq] at h
        subst h
        have hb2 : b2 = i := by
          have := List.find?_some hg
          simpa [COp.opId] using this
        subst hb2
        exact ⟨rfl, sp, iv0, hg⟩
      | view i2 sv => cases h
      | copyOp i2 s0 t0 => cases h
      | user i2 os => cases h

/-! ## Claim C3 -/

/-- C3: the copy pattern fires only when all of its preconditions hold —
identical memory spaces, both sides resolving through view chains to a
block argument or a `BufferOp`, at least one side resolving to a
`BufferOp`, every user of the source buffer dominating the copy, and the
copy dominating every user of the target buffer; conversely, a copy
between different memory spaces always fails to match and the function
body is left unchanged. -/
theorem c3_preconditions :
    (∀ fn cid k fn2, matchAndRewrite fn cid = some (k, fn2) →
      ∃ s t, getOp fn cid = some (COp.copyOp cid s t) ∧
        ∃ sp, memSpace fn s = some sp ∧ memSpace fn t = some sp ∧
        ∃ src tgt, findBuffer fn s = some src ∧ findBuffer fn t = some tgt ∧
          ¬ (definingBufferId fn src = none ∧ definingBufferId fn tgt = none) ∧
          (findBufferUsers fn src).all (fun u => dominatesId fn u.opId cid) = true ∧
          (findBufferUsers fn tgt).all (fun u => dominatesId fn cid u.opId) = true) ∧
    (∀ fn cid i s t ssp tsp, getOp fn cid = some (COp.copyOp i s t) →
      memSpace fn s = some ssp → memSpace fn t = some tsp → ssp ≠ tsp →
      matchAndRewrite fn cid = none ∧ simplifyCopyAt fn cid = fn) := by
  constructor
  · intro fn cid k fn2 h
    unfold matchAndRewrite at h
    cases hop : getOp fn cid with
    | none => simp [hop] at h
    | some o =>
      cases o with
      | buffer i sp iv => simp [hop] at h
      | view i sv => simp [hop] at h
      | user i os => simp [hop] at h
      | copyOp i s t =>
        have hid : i = cid := by
          have := List.find?_some hop
          simpa [COp.opId] using this
        subst hid
        simp only [hop] at h
        refine ⟨s, t, rfl, ?_⟩
        unfold matchAndRewriteCore at h
        cases hms : memSpace fn s with
        | none => simp [hms] at h
        | some ssp =>
          simp only [hms] at h
          cases hmt : memSpace fn t with
          | none => simp [hmt] at h
          | some tsp =>
            simp only [hmt] at h
            by_cases hspe : ssp ≠ tsp
            · rw [if_pos hspe] at h; cases h
            · rw [if_neg hspe] at h
              have htsp : tsp = ssp := by omega
              subst htsp
              refine ⟨tsp, rfl, rfl, ?_⟩
              cases hfs : findBuffer fn s with
              | none => simp [hfs] at h
              | some src =>
                simp only [hfs] at h
                cases hft : findBuffer fn t with
                | none => simp [hft] at h
                | some tgt =>
                  simp only [hft] at h
                  refine ⟨src, tgt, rfl, rfl, ?_⟩
                  by_cases hboth :
                      definingBufferId fn src = none ∧ definingBufferId fn tgt = none
                  · rw [if_pos hboth] at h; cases h
                  · rw [if_neg hboth] at h
                    by_cases hsu : (findBufferUsers fn src).all
                        (fun u => dominatesId fn u.opId i) = true
                    · rw [if_neg (not_not_intro hsu)] at h
                      by_cases htu : (findBufferUsers fn tgt).all
                          (fun u => dominatesId fn i u.opId) = true
                      · exact ⟨hboth, hsu, htu⟩
                      · rw [if_pos htu] at h; cases h
                    · rw [if_pos hsu] at h; cases h
  · intro fn cid i s t ssp tsp hop hs ht hne
    have hmr : matchAndRewrite fn cid = none := by
      unfold matchAndRewrite
      simp only [hop]
      unfold matchAndRewriteCore
      simp only [hs, ht]
      rw [if_pos hne]
    exact ⟨hmr, by unfold simplifyCopyAt; rw [hmr]⟩

/-- Witness for C3: the pattern fires at the concrete input `c3fn`
(discharging the hypotheses of the first part), and the same input with
mismatched memory spaces, `c3fnDiff`, never matches. -/
theorem c3_preconditions_witness :
    matchAndRewrite c3fn 2 =
      some (RewriteKind.elimTarget,
        { argSpaces := [0], body := [.user 3 [.arg 0]] }) ∧
    (∃ s t, getOp c3fn 2 = some (COp.copyOp 2 s t) ∧
      ∃ sp, memSpace c3fn s = some sp ∧ memSpace c3fn t = some sp ∧
      ∃ src tgt, findBuffer c3fn s = some src ∧ findBuffer c3fn t = some tgt ∧
        ¬ (definingBufferId c3fn src = none ∧ definingBufferId c3fn tgt = none) ∧
        (findBufferUsers c3fn src).all (fun u => dominatesId c3fn u.opId 2) = true ∧
        (findBufferUsers c3fn tgt).all (fun u => dominatesId c3fn 2 u.opId) = true) ∧
    (getOp c3fnDiff 2 = some (COp.copyOp 2 (.arg 0) (.res 1)) ∧
      memSpace c3fnDiff (.arg 0) = some 0 ∧ memSpace c3fnDiff (.res 1) = some 1 ∧
      (0 : Nat) ≠ 1 ∧
      matchAndRewrite c3fnDiff 2 = none ∧ simplifyCopyAt c3fnDiff 2 = c3fnDiff) :=
  ⟨by decide,
    c3_preconditions.1 c3fn 2 RewriteKind.elimTarget
      { argSpaces := [0], body := [.user 3 [.arg 0]] } (by decide),
    by decide, by decide, by decide, by decide,
    (c3_preconditions.2 c3fnDiff 2 2 (.arg 0) (.res 1) 0 1
      (by decide) (by decide) (by decide) (by decide)).1,
    (c3_preconditions.2 c3fnDiff 2 2 (.arg 0) (.res 1) 0 1
      (by decide) (by decide) (by decide) (by decide)).2⟩

/-! ## Claim C7 -/

/-- C7: when the eliminate-target rewrite fires, the target resolves to a
local `BufferOp` that is itself the copy's target operand (no intervening
view between its definition and the copy), the source view — if any —
dominates every user of the target buffer, the result is exactly the
redirection of every use of the target buffer to the copy's source value
with both the copy and the target buffer's definition removed, and (for a
copy whose source is not the target buffer itself, on a well-formed body)
no reference to the removed buffer and no dangling reference remains. -/
theorem c7_elim_target (fn : CFunc) (cid : Nat) (fn2 : CFunc)
    (h : matchAndRewrite fn cid = some (RewriteKind.elimTarget, fn2)) :
    ∃ s t tgt tb, getOp fn cid = some (COp.copyOp cid s t) ∧
      findBuffer fn t = some tgt ∧
      definingBufferId fn tgt = some tb ∧
      definingOpId t = some tb ∧
      (definingOpId s = none ∨
        (findBufferUsers fn tgt).all
          (fun u => dominatesId fn ((definingOpId s).getD 0) u.opId) = true) ∧
      fn2 = replaceAndErase fn tb cid s ∧
      getOp fn2 tb = none ∧ getOp fn2 cid = none ∧
      (s ≠ CVal.res tb → referencesVal fn2 (CVal.res tb) = false) ∧
      (noDangling fn = true → s ≠ CVal.res tb → noDangling fn2 = true) := by
  obtain ⟨s, t, hop, hcore⟩ := mar_some_inv h
  obtain ⟨src, tgt, hfs, hft, hbr⟩ := core_some_inv hcore
  obtain ⟨tb, htb, htv, hdom, hfn2⟩ := branches_elimTarget_inv hbr
  subst hfn2
  refine ⟨s, t, tgt, tb, hop, hft, htb, htv, hdom, rfl, ?_, ?_, ?_, ?_⟩
  · exact getOp_rae_removed fn tb cid s tb (Or.inl rfl)
  · exact getOp_rae_removed fn tb cid s cid (Or.inr rfl)
  · intro hs
    exact referencesVal_replaceAndErase fn tb cid hs
  · intro hnd hs
    exact noDangling_replaceAndErase fn tb cid hnd hop hs

/-- Witness for C7 at the concrete input `c7fn` (the spec's end-to-end
example: target buffer `1`, source block argument `0`, reader `3`). -/
theorem c7_elim_target_witness :
    matchAndRewrite c7fn 2 = some (RewriteKind.elimTarget, c7fnAfter) ∧
    (∃ s t tgt tb, getOp c7fn 2 = some (COp.copyOp 2 s t) ∧
      findBuffer c7fn t = some tgt ∧
      definingBufferId c7fn tgt = some tb ∧
      definingOpId t = some tb ∧
      (definingOpId s = none ∨
        (findBufferUsers c7fn tgt).all
          (fun u => dominatesId c7fn ((definingOpId s).getD 0) u.opId) = true) ∧
      c7fnAfter = replaceAndErase c7fn tb 2 s ∧
      getOp c7fnAfter tb = none ∧ getOp c7fnAfter 2 = none ∧
      (s ≠ CVal.res tb → referencesVal c7fnAfter (CVal.res tb) = false) ∧
      (noDangling c7fn = true → s ≠ CVal.res tb →
        noDangling c7fnAfter = true)) :=
  ⟨by decide, c7_elim_target c7fn 2 c7fnAfter (by decide)⟩

/-! ## Claim C8 -/

/-- C8: when the eliminate-source rewrite fires and the source buffer carries
an initial value, the target resolves to a local `BufferOp` that has no
initial value of its own or is itself the copy's target operand, the
source's initial value is written onto the surviving target buffer, and the
source buffer's definition and the copy are removed with every use of the
source buffer redirected to the copy's target; when instead the
eliminate-source rewrite is considered (eliminate-target not applicable,
the symmetric conditions hold) and the source has an initial value the
target cannot receive, the pattern fails and the copy is left untouched. -/
theorem c8_elim_source :
    (∀ fn cid fn2, matchAndRewrite fn cid = some (RewriteKind.elimSource, fn2) →
      ∃ s t src tgt sb, getOp fn cid = some (COp.copyOp cid s t) ∧
        findBuffer fn s = some src ∧ findBuffer fn t = some tgt ∧
        definingBufferId fn src = some sb ∧ definingOpId s = some sb ∧
        getOp fn2 sb = none ∧ getOp fn2 cid = none ∧
        ((bufInitVal fn sb = none ∧ fn2 = replaceAndErase fn sb cid t) ∨
          (∃ iv tb, bufInitVal fn sb = some iv ∧
            definingBufferId fn tgt = some tb ∧
            (bufInitVal fn tb = none ∨ definingOpId t = some tb) ∧
            fn2 = replaceAndErase (setBufInit fn tb iv) sb cid t ∧
            (tb ≠ sb → tb ≠ cid → bufInitVal fn2 tb = some iv)))) ∧
    (∀ fn cid s t src tgt sb, ¬ elimTargetCond fn s t tgt →
      elimSourceCond fn s t src → definingBufferId fn src = some sb →
      (bufInitVal fn sb).isSome = true → initTransferFailCond fn t tgt →
      matchAndRewriteBranches fn cid s t src tgt = none) := by
  constructor
  · intro fn cid fn2 h
    obtain ⟨s, t, hop, hcore⟩ := mar_some_inv h
    obtain ⟨src, tgt, hfs, hft, hbr⟩ := core_some_inv hcore
    obtain ⟨sb, hsb, hsv, _hdom, hcase⟩ := branches_elimSource_inv hbr
    rcases hcase with ⟨hiv, hfn2⟩ | ⟨iv, tb, hiv, htb, hokt, hfn2⟩
    · subst hfn2
      refine ⟨s, t, src, tgt, sb, hop, hfs, hft, hsb, hsv, ?_, ?_,
        Or.inl ⟨hiv, rfl⟩⟩
      · exact getOp_rae_removed fn sb cid t sb (Or.inl rfl)
      · exact getOp_rae_removed fn sb cid t cid (Or.inr rfl)
    · subst hfn2
      refine ⟨s, t, src, tgt, sb, hop, hfs, hft, hsb, hsv, ?_, ?_,
        Or.inr ⟨iv, tb, hiv, htb, hokt, rfl, ?_⟩⟩
      · exact getOp_rae_removed (setBufInit fn tb iv) sb cid t sb (Or.inl rfl)
      · exact getOp_rae_removed (setBufInit fn tb iv) sb cid t cid (Or.inr rfl)
      · intro htbsb htbcid
        obtain ⟨_, sp, iv0, hbuf⟩ := definingBufferId_some htb
        unfold bufInitVal
        rw [getOp_rae_other (setBufInit fn tb iv) sb cid t tb htbsb htbcid,
          getOp_setBufInit, hbuf]
        simp [setInitFun, COp.substOperands]
  · intro fn cid s t src tgt sb htc hsc hsb hiv hbad
    exact branches_initFail_none htc hsc hsb hiv hbad

/-- Witness for C8: the rewrite fires at `c8fn` (source buffer `1` with
initial value `7`, target buffer `2` behind view `3`) and transfers the
initial value; at `c8fnBad` (target has its own initial value and is not
its own defining view) the conditions of the failure direction hold and the
pattern fails. -/
theorem c8_elim_source_witness :
    matchAndRewrite c8fn 4 = some (RewriteKind.elimSource, c8fnAfter) ∧
    (∃ s t src tgt sb, getOp c8fn 4 = some (COp.copyOp 4 s t) ∧
      findBuffer c8fn s = some src ∧ findBuffer c8fn t = some tgt ∧
      definingBufferId c8fn src = some sb ∧ definingOpId s = some sb ∧
      getOp c8fnAfter sb = none ∧ getOp c8fnAfter 4 = none ∧
      ((bufInitVal c8fn sb = none ∧ c8fnAfter = replaceAndErase c8fn sb 4 t) ∨
        (∃ iv tb, bufInitVal c8fn sb = some iv ∧
          definingBufferId c8fn tgt = some tb ∧
          (bufInitVal c8fn tb = none ∨ definingOpId t = some tb) ∧
          c8fnAfter = replaceAndErase (setBufInit c8fn tb iv) sb 4 t ∧
          (tb ≠ sb → tb ≠ 4 → bufInitVal c8fnAfter tb = some iv)))) ∧
    (¬ elimTargetCond c8fnBad (.res 1) (.res 3) (.res 2) ∧
      elimSourceCond c8fnBad (.res 1) (.res 3) (.res 1) ∧
      definingBufferId c8fnBad (.res 1) = some 1 ∧
      (bufInitVal c8fnBad 1).isSome = true ∧
      initTransferFailCond c8fnBad (.res 3) (.res 2) ∧
      matchAndRewriteBranches c8fnBad 4 (.res 1) (.res 3) (.res 1) (.res 2) = none ∧
      matchAndRewrite c8fnBad 4 = none) :=
  ⟨by decide, c8_elim_source.1 c8fn 4 c8fnAfter (by decide),
    by decide, by decide, by decide, by decide, by decide,
    c8_elim_source.2 c8fnBad 4 (.res 1) (.res 3) (.res 1) (.res 2) 1
      (by decide) (by decide) (by decide) (by decide) (by decide),
    by decide⟩

end ScaleHLS
